import Mathlib

/-!
Debug printer `debug.h`: a shallow embedding.

The header defines stream inserters (`operator<<`) for the standard containers and the
name/value printer `db_out`.  Here

* an output stream is the text written to it so far;
* a C++ type `T` that can be printed is a Lean type with a `Printable` instance, which carries
  the compile-time traits of the header (`is_container`, `is_pair`, `is_tuple`) and the text
  that `os << x` appends;
* every template of the header is a Lean function over such types, written statement by
  statement after the source;
* a `for` loop over a container is a left fold over its iteration sequence, a `while` loop is
  iterated with fuel and reports how many times its body ran;
* a container is the sequence its iteration yields, a stack or queue the sequence of its
  elements, and a priority queue the binary heap of the standard library: `push`, `top` and
  `pop` are `push_heap`, `front` and `pop_heap` of libstdc++, the library the header includes
  through `bits/stdc++.h`, so equivalent elements leave in the order that library gives.
-/

namespace Debug

/-! ## Streams and printable types -/

/-- An output stream (`ostream`, `clog`): the text written so far. -/
structure ostream where
  buf : String
deriving DecidableEq, Repr

/-- A printable C++ type: the three traits of the header evaluated at the type, and the text
that the stream inserter selected for the type appends for a value. -/
class Printable (T : Type) where
  is_container : Bool
  is_pair : Bool
  is_tuple : Bool
  render : T → String

/-- The trait `is_container<T>::value`: `T` has `begin()` and `end()`. -/
def is_container (T : Type) [inst : Printable T] : Bool := inst.is_container

/-- The trait `is_pair<T>::value`. -/
def is_pair (T : Type) [inst : Printable T] : Bool := inst.is_pair

/-- The trait `is_tuple<T>::value`. -/
def is_tuple (T : Type) [inst : Printable T] : Bool := inst.is_tuple

/-- Text of a value as the stream inserter of its type writes it. -/
def render {T : Type} [inst : Printable T] (x : T) : String := inst.render x

/-- The statement `os << "literal"`. -/
def ostream.puts (os : ostream) (s : String) : ostream := ⟨os.buf ++ s⟩

/-- The statement `os << x` for a value of a printable type. -/
def ostream.put {T : Type} [Printable T] (os : ostream) (x : T) : ostream :=
  ⟨os.buf ++ render x⟩

/-- The manipulator `endl`: a line break (the flush is not observable in the text). -/
def ostream.endl (os : ostream) : ostream := os.puts "\n"

/-- Number of values of `size_t` (64 bit). -/
def SIZE_T_MOD : Nat := 2 ^ 64

/-- Subtraction on `size_t`, wrapping around. -/
def size_t_sub (a b : Nat) : Nat := (a + SIZE_T_MOD - b % SIZE_T_MOD) % SIZE_T_MOD

/-- Whether a text contains a line break. -/
def hasLineBreak (s : String) : Bool := s.data.contains '\n'

/-! ## Values -/

/-- The type `std::pair<T, U>`. -/
structure pair (T U : Type) where
  first : T
  second : U

/-- The type `std::vector<T>`: its elements in index order. -/
structure vector (T : Type) where
  elems : List T

/-- The type `std::deque<T>`: its elements in index order. -/
structure deque (T : Type) where
  elems : List T

/-- The type `std::list<T>`: its elements in iteration order. -/
structure list (T : Type) where
  elems : List T

/-- The type `std::set<T>`: its elements in iteration order. -/
structure set (T : Type) where
  elems : List T

/-- The type `std::map<K, V>`: its entries in iteration order. -/
structure map (K V : Type) where
  entries : List (K × V)

/-- The type `std::unordered_map<K, V>`: its entries in iteration order. -/
structure unordered_map (K V : Type) where
  entries : List (K × V)

/-- The type `std::stack<T>`: its elements, the top one first. -/
structure stack (T : Type) where
  c : List T

/-- The type `std::queue<T>`: its elements, the front one first. -/
structure queue (T : Type) where
  c : List T

/-- The type `std::priority_queue<T, Container, Compare>`: the underlying container `c`, kept
as a binary heap by the standard library (the children of position `i` are at `2 i + 1` and
`2 i + 2`), and the comparison `comp a b` ("`a` is ordered before `b`"). -/
structure priority_queue (T : Type) where
  c : List T
  comp : T → T → Bool

/-- A value of type `std::string`. -/
structure std_string where
  s : String
deriving DecidableEq

/-- A value of type `const char *` or a string literal. -/
structure c_str where
  s : String
deriving DecidableEq

def vector.size {T : Type} (v : vector T) : Nat := v.elems.length
def vector.empty {T : Type} (v : vector T) : Bool := v.elems.isEmpty
def deque.size {T : Type} (d : deque T) : Nat := d.elems.length
def set.size {T : Type} (s : set T) : Nat := s.elems.length
def set.empty {T : Type} (s : set T) : Bool := s.elems.isEmpty
def map.size {K V : Type} (m : map K V) : Nat := m.entries.length
def map.empty {K V : Type} (m : map K V) : Bool := m.entries.isEmpty
def unordered_map.size {K V : Type} (m : unordered_map K V) : Nat := m.entries.length
def unordered_map.empty {K V : Type} (m : unordered_map K V) : Bool := m.entries.isEmpty

/-! ### Adapter operations -/

def stack.empty {T : Type} (st : stack T) : Bool := st.c.isEmpty
def stack.size {T : Type} (st : stack T) : Nat := st.c.length
def stack.push {T : Type} (st : stack T) (x : T) : stack T := ⟨x :: st.c⟩
def stack.top {T : Type} (st : stack T) : Option T := st.c.head?
def stack.pop {T : Type} (st : stack T) : stack T := ⟨st.c.tail⟩

def queue.empty {T : Type} (q : queue T) : Bool := q.c.isEmpty
def queue.size {T : Type} (q : queue T) : Nat := q.c.length
def queue.push {T : Type} (q : queue T) (x : T) : queue T := ⟨q.c ++ [x]⟩
def queue.front {T : Type} (q : queue T) : Option T := q.c.head?
def queue.pop {T : Type} (q : queue T) : queue T := ⟨q.c.tail⟩

/-- The function `std::__push_heap(first, holeIndex, topIndex, value, comp)` of the standard
library (libstdc++): while the hole is below `topIndex` and its parent is ordered before
`value`, the parent moves into the hole; then `value` is stored in the hole. The hole moves
to a smaller index in every iteration, so `holeIndex` iterations are always enough. -/
def push_heap_hole {T : Type} (comp : T → T → Bool) (value : T) (topIndex : Nat) :
    Nat → List T → Nat → List T
  | 0, cs, holeIndex => cs.set holeIndex value
  | fuel + 1, cs, holeIndex =>
    let parent := (holeIndex - 1) / 2
    match cs[parent]? with
    | some p =>
      if holeIndex > topIndex && comp p value then
        push_heap_hole comp value topIndex fuel (cs.set holeIndex p) parent
      else cs.set holeIndex value
    | none => cs.set holeIndex value

/-- The loop of `std::__adjust_heap(first, holeIndex, len, value, comp)`: while the hole has
two children, the child that is not ordered before the other moves into the hole. Returns
the container and the hole. The hole moves to a greater index in every iteration, so `len`
iterations are always enough. -/
def adjust_heap_down {T : Type} (comp : T → T → Bool) (len : Nat) :
    Nat → List T → Nat → List T × Nat
  | 0, cs, holeIndex => (cs, holeIndex)
  | fuel + 1, cs, holeIndex =>
    if holeIndex < (len - 1) / 2 then
      let secondChild := 2 * (holeIndex + 1)
      match cs[secondChild]?, cs[secondChild - 1]? with
      | some r, some l =>
        if comp r l then adjust_heap_down comp len fuel (cs.set holeIndex l) (secondChild - 1)
        else adjust_heap_down comp len fuel (cs.set holeIndex r) secondChild
      | _, _ => (cs, holeIndex)
    else (cs, holeIndex)

/-- The function `std::__adjust_heap(first, holeIndex, len, value, comp)`: the loop above, the
step for a hole with a single child, then `std::__push_heap` from the hole. It is called by
`pop_heap` only, with `len >= 1`. -/
def adjust_heap {T : Type} (comp : T → T → Bool) (cs : List T) (holeIndex len : Nat)
    (value : T) : List T :=
  let topIndex := holeIndex
  let r := adjust_heap_down comp len len cs holeIndex
  let cs := r.1
  let holeIndex := r.2
  let r :=
    if len % 2 = 0 && holeIndex = (len - 2) / 2 then
      let secondChild := 2 * (holeIndex + 1)
      match cs[secondChild - 1]? with
      | some l => (cs.set holeIndex l, secondChild - 1)
      | none => (cs, holeIndex)
    else (cs, holeIndex)
  push_heap_hole comp value topIndex r.2 r.1 r.2

/-- The function `std::push_heap(first, last, comp)`: the last element is the value, its
position the hole. -/
def push_heap {T : Type} (comp : T → T → Bool) (cs : List T) : List T :=
  match cs.getLast? with
  | some value => push_heap_hole comp value 0 (cs.length - 1) cs (cs.length - 1)
  | none => cs

/-- The function `std::pop_heap(first, last, comp)`: with more than one element, the last
element is the value, the first element moves to the last position and the heap before it
is adjusted from the hole at the front. -/
def pop_heap {T : Type} (comp : T → T → Bool) (cs : List T) : List T :=
  if cs.length > 1 then
    match cs.getLast?, cs.head? with
    | some value, some x => adjust_heap comp (cs.set (cs.length - 1) x) 0 (cs.length - 1) value
    | _, _ => cs
  else cs

def priority_queue.empty {T : Type} (pq : priority_queue T) : Bool := pq.c.isEmpty
def priority_queue.size {T : Type} (pq : priority_queue T) : Nat := pq.c.length

/-- The member `push(x)`: `c.push_back(x); std::push_heap(c.begin(), c.end(), comp)`. -/
def priority_queue.push {T : Type} (pq : priority_queue T) (x : T) : priority_queue T :=
  { pq with c := push_heap pq.comp (pq.c ++ [x]) }

/-- The member `top()`: `c.front()`. -/
def priority_queue.top {T : Type} (pq : priority_queue T) : Option T := pq.c.head?

/-- The member `pop()`: `std::pop_heap(c.begin(), c.end(), comp); c.pop_back()`. -/
def priority_queue.pop {T : Type} (pq : priority_queue T) : priority_queue T :=
  { pq with c := (pop_heap pq.comp pq.c).dropLast }

/-! ## Loops -/

/-- A `while (cond) body` loop run with fuel: the final state and the number of times the body
ran, or `none` when the fuel does not suffice. -/
def while_loop {σ : Type} (cond : σ → Bool) (body : σ → σ) : Nat → σ → Option (σ × Nat)
  | 0, s => if cond s then none else some (s, 0)
  | fuel + 1, s =>
    if cond s then (while_loop cond body fuel (body s)).map (fun r => (r.1, r.2 + 1))
    else some (s, 0)

/-- Body of the loops `os << (first ? "" : ", ") << x, first = false`. -/
def first_step {T : Type} [Printable T] (st : ostream × Bool) (x : T) : ostream × Bool :=
  ((st.1.puts (if st.2 then "" else ", ")).put x, false)

/-- Body of the loops `os << (i ? ", " : "") << v[i]`. -/
def index_step {T : Type} [Printable T] (os : ostream) (ix : Nat × T) : ostream :=
  (os.puts (if ix.1 != 0 then ", " else "")).put ix.2

/-- Body of the loops `os << (first ? "" : ", ") << k << ": " << v, first = false`. -/
def first_step_kv {K V : Type} [Printable K] [Printable V] (st : ostream × Bool) (kv : K × V) :
    ostream × Bool :=
  ((((st.1.puts (if st.2 then "" else ", ")).put kv.1).puts ": ").put kv.2, false)

/-! ## Stream inserters -/

/-- Pair printing, `operator<<(ostream &, const pair<T, U> &)`. -/
def operator_lshift_pair {T U : Type} [Printable T] [Printable U] (os : ostream)
    (p : pair T U) : ostream :=
  os.puts "(" |>.put p.first |>.puts ", " |>.put p.second |>.puts ")"

/-- Vector printing, `operator<<(ostream &, const vector<T> &)`. -/
def operator_lshift_vector {T : Type} [Printable T] (os : ostream) (v : vector T) : ostream :=
  let os := os.puts "["
  if is_container T || is_pair T then
    let os :=
      if !v.empty then
        let os := os.puts "\n"
        v.elems.enum.foldl (fun os ix =>
          let os := os.puts "  " |>.put ix.2
          let os := if ix.1 != size_t_sub v.size 1 then os.puts "," else os
          os.puts "\n") os
      else os
    os.puts "]"
  else
    let os := v.elems.enum.foldl index_step os
    os.puts "]"

/-- Deque printing, `operator<<(ostream &, const deque<T> &)`. -/
def operator_lshift_deque {T : Type} [Printable T] (os : ostream) (d : deque T) : ostream :=
  let os := os.puts "["
  let os := d.elems.enum.foldl index_step os
  os.puts "]"

/-- List printing, `operator<<(ostream &, const list<T> &)`. -/
def operator_lshift_list {T : Type} [Printable T] (os : ostream) (l : list T) : ostream :=
  let os := os.puts "["
  let r := l.elems.foldl first_step (os, true)
  r.1.puts "]"

/-- Set printing, `operator<<(ostream &, const set<T> &)`. -/
def operator_lshift_set {T : Type} [Printable T] (os : ostream) (s : set T) : ostream :=
  let os := os.puts "\x7b"
  if s.size > 10 then
    let os :=
      if !s.empty then
        let os := os.puts "\n"
        s.elems.foldl (fun os x => os.puts "  " |>.put x |>.puts ",\n") os
      else os
    os.puts "\x7d"
  else
    let r := s.elems.foldl first_step (os, true)
    r.1.puts "\x7d"

/-- Map printing, `operator<<(ostream &, const map<K, V> &)`; the loop state is the stream and
the counter `idx`. -/
def operator_lshift_map {K V : Type} [Printable K] [Printable V] (os : ostream)
    (m : map K V) : ostream :=
  let os := os.puts "\x7b"
  if m.size > 5 || is_container V then
    let os :=
      if !m.empty then
        let os := os.puts "\n"
        let r := m.entries.foldl (fun (st : ostream × Nat) kv =>
          let os := st.1.puts "  " |>.put kv.1 |>.puts ": " |>.put kv.2
          let os := if st.2 != size_t_sub m.size 1 then os.puts "," else os
          (os.puts "\n", (st.2 + 1) % SIZE_T_MOD)) (os, 0)
        r.1
      else os
    os.puts "\x7d"
  else
    let r := m.entries.foldl first_step_kv (os, true)
    r.1.puts "\x7d"

/-- Unordered map printing, `operator<<(ostream &, const unordered_map<K, V> &)`. -/
def operator_lshift_unordered_map {K V : Type} [Printable K] [Printable V] (os : ostream)
    (um : unordered_map K V) : ostream :=
  let os := os.puts "\x7b"
  if um.size > 5 || is_container V then
    let os :=
      if !um.empty then
        let os := os.puts "\n"
        um.entries.foldl (fun os kv =>
          os.puts "  " |>.put kv.1 |>.puts ": " |>.put kv.2 |>.puts ",\n") os
      else os
    os.puts "\x7d"
  else
    let r := um.entries.foldl first_step_kv (os, true)
    r.1.puts "\x7d"

/-! ### Adapters

The adapter printers take their argument by value: the parameter is the printer's own object.
Their state while the loop runs is the stream, the flag `first` and that parameter. -/

/-- Local state of an adapter printer. -/
structure Drain (A : Type) where
  os : ostream
  first : Bool
  a : A

/-- Result of an adapter printer: the stream it returns, its parameter object when it returns,
and the number of iterations of its loop. -/
structure Drained (A : Type) where
  os : ostream
  param : A
  iterations : Nat

/-- Stack printing, `operator<<(ostream &, stack<T, Container>)`. -/
def operator_lshift_stack {T : Type} [Printable T] (fuel : Nat) (os : ostream)
    (st : stack T) : Option (Drained (stack T)) :=
  let os := os.puts "["
  let r := while_loop (fun (s : Drain (stack T)) => !s.a.empty)
    (fun (s : Drain (stack T)) => match s.a.top with
      | some x => { os := (s.os.puts (if s.first then "" else ", ")).put x,
                    a := s.a.pop, first := false }
      | none => s)
    fuel { os := os, first := true, a := st }
  r.map (fun (r : Drain (stack T) × Nat) => { os := r.1.os.puts "]", param := r.1.a, iterations := r.2 })

/-- Queue printing, `operator<<(ostream &, queue<T, Container>)`. -/
def operator_lshift_queue {T : Type} [Printable T] (fuel : Nat) (os : ostream)
    (q : queue T) : Option (Drained (queue T)) :=
  let os := os.puts "["
  let r := while_loop (fun (s : Drain (queue T)) => !s.a.empty)
    (fun (s : Drain (queue T)) => match s.a.front with
      | some x => { os := (s.os.puts (if s.first then "" else ", ")).put x,
                    a := s.a.pop, first := false }
      | none => s)
    fuel { os := os, first := true, a := q }
  r.map (fun (r : Drain (queue T) × Nat) => { os := r.1.os.puts "]", param := r.1.a, iterations := r.2 })

/-- Priority queue printing, `operator<<(ostream &, priority_queue<T, Container, Compare>)`. -/
def operator_lshift_priority_queue {T : Type} [Printable T] (fuel : Nat) (os : ostream)
    (pq : priority_queue T) : Option (Drained (priority_queue T)) :=
  let os := os.puts "\x7b"
  let r := while_loop (fun (s : Drain (priority_queue T)) => !s.a.empty)
    (fun (s : Drain (priority_queue T)) => match s.a.top with
      | some x => { os := (s.os.puts (if s.first then "" else ", ")).put x,
                    a := s.a.pop, first := false }
      | none => s)
    fuel { os := os, first := true, a := pq }
  r.map (fun (r : Drain (priority_queue T) × Nat) => { os := r.1.os.puts "\x7d", param := r.1.a, iterations := r.2 })

/-- What the caller of `os << a` holds: the stream and its own adapter variable `a`. -/
structure Caller (A : Type) where
  os : ostream
  a : A

/-- The expression `os << st` for a stack variable `st` of the caller: the parameter of the
printer is copy-initialised from `st`, the printer runs on the copy. Returns the caller's
state afterwards together with the printer's result. -/
def Caller.print_stack {T : Type} [Printable T] (fuel : Nat) (c : Caller (stack T)) :
    Option (Caller (stack T) × Drained (stack T)) :=
  let st : stack T := c.a
  (operator_lshift_stack fuel c.os st).map (fun r => ({ os := r.os, a := c.a }, r))

/-- The expression `os << q` for a queue variable `q` of the caller. -/
def Caller.print_queue {T : Type} [Printable T] (fuel : Nat) (c : Caller (queue T)) :
    Option (Caller (queue T) × Drained (queue T)) :=
  let q : queue T := c.a
  (operator_lshift_queue fuel c.os q).map (fun r => ({ os := r.os, a := c.a }, r))

/-- The expression `os << pq` for a priority queue variable `pq` of the caller. -/
def Caller.print_priority_queue {T : Type} [Printable T] (fuel : Nat)
    (c : Caller (priority_queue T)) :
    Option (Caller (priority_queue T) × Drained (priority_queue T)) :=
  let pq : priority_queue T := c.a
  (operator_lshift_priority_queue fuel c.os pq).map (fun r => ({ os := r.os, a := c.a }, r))

/-! ## Printable instances: overload resolution of `operator<<` -/

/-- The type `int`, printed in decimal by the standard library. -/
instance : Printable Int where
  is_container := false
  is_pair := false
  is_tuple := false
  render n := toString n

/-- String literals and `const char *`: printed as their characters; no `begin()`. -/
instance : Printable c_str where
  is_container := false
  is_pair := false
  is_tuple := false
  render x := x.s

/-- The type `std::string`: printed as its characters; it has `begin()` and `end()`. -/
instance : Printable std_string where
  is_container := true
  is_pair := false
  is_tuple := false
  render x := x.s

instance {T U : Type} [Printable T] [Printable U] : Printable (pair T U) where
  is_container := false
  is_pair := true
  is_tuple := false
  render p := (operator_lshift_pair ⟨""⟩ p).buf

instance {T : Type} [Printable T] : Printable (vector T) where
  is_container := true
  is_pair := false
  is_tuple := false
  render v := (operator_lshift_vector ⟨""⟩ v).buf

instance {T : Type} [Printable T] : Printable (deque T) where
  is_container := true
  is_pair := false
  is_tuple := false
  render d := (operator_lshift_deque ⟨""⟩ d).buf

instance {T : Type} [Printable T] : Printable (list T) where
  is_container := true
  is_pair := false
  is_tuple := false
  render l := (operator_lshift_list ⟨""⟩ l).buf

instance {T : Type} [Printable T] : Printable (set T) where
  is_container := true
  is_pair := false
  is_tuple := false
  render s := (operator_lshift_set ⟨""⟩ s).buf

instance {K V : Type} [Printable K] [Printable V] : Printable (map K V) where
  is_container := true
  is_pair := false
  is_tuple := false
  render m := (operator_lshift_map ⟨""⟩ m).buf

instance {K V : Type} [Printable K] [Printable V] : Printable (unordered_map K V) where
  is_container := true
  is_pair := false
  is_tuple := false
  render m := (operator_lshift_unordered_map ⟨""⟩ m).buf

/-! ## The name/value printer -/

/-- One argument of `db_out`: a value together with its static type. -/
structure Arg where
  T : Type
  inst : Printable T
  x : T

/-- Text of an argument. -/
def Arg.render (a : Arg) : String := a.inst.render a.x

/-- The test `is_container<remove_reference_t<T>>::value` for an argument. -/
def Arg.is_container (a : Arg) : Bool := a.inst.is_container

/-- An argument of a printable type. -/
def arg {T : Type} [inst : Printable T] (x : T) : Arg := ⟨T, inst, x⟩

/-- The call `strchr(names, c)`: the offset of the first `c`, if there is one. -/
def strchr : List Char → Char → Option Nat
  | [], _ => none
  | d :: ds, c => if d = c then some 0 else (strchr ds c).map (· + 1)

/-- The function `db_out` on the stream `clog`: the overload `db_out(const char *)` for no
value, the variadic template for a first value `x` and the remaining values `args`. -/
def db_out (clog : ostream) (names : String) : List Arg → ostream
  | [] => clog.endl
  | x :: args =>
    match strchr names.data ',' with
    | none => ((clog.puts names).puts " = " |>.puts x.render).endl
    | some comma =>
      let clog := (clog.puts (String.mk (names.data.take comma))).puts " = "
      let clog :=
        if x.is_container then (clog.puts x.render).puts "\n"
        else (clog.puts x.render).puts " | "
      db_out clog (String.mk (names.data.drop (comma + 1))) args

/-! ## Further containers -/

/-- The type `std::multiset<T>`: its elements in iteration order. -/
structure multiset (T : Type) where
  elems : List T

/-- The type `std::unordered_set<T>`: its elements in iteration order. -/
structure unordered_set (T : Type) where
  elems : List T

/-- The type `std::unordered_multiset<T>`: its elements in iteration order. -/
structure unordered_multiset (T : Type) where
  elems : List T

/-- The type `std::multimap<K, V>`: its entries in iteration order. -/
structure multimap (K V : Type) where
  entries : List (K × V)

/-- The type `std::unordered_multimap<K, V>`: its entries in iteration order. -/
structure unordered_multimap (K V : Type) where
  entries : List (K × V)

/-- The type `std::tuple<Ts...>`: its elements in index order, each with its own type. -/
structure tuple where
  elems : List Arg

/-- Multiset printing, `operator<<(ostream &, const multiset<T> &)`. -/
def operator_lshift_multiset {T : Type} [Printable T] (os : ostream) (ms : multiset T) :
    ostream :=
  let os := os.puts "\x7b"
  let r := ms.elems.foldl first_step (os, true)
  r.1.puts "\x7d"

/-- Unordered set printing, `operator<<(ostream &, const unordered_set<T> &)`. -/
def operator_lshift_unordered_set {T : Type} [Printable T] (os : ostream)
    (us : unordered_set T) : ostream :=
  let os := os.puts "\x7b"
  let r := us.elems.foldl first_step (os, true)
  r.1.puts "\x7d"

/-- Unordered multiset printing, `operator<<(ostream &, const unordered_multiset<T> &)`. -/
def operator_lshift_unordered_multiset {T : Type} [Printable T] (os : ostream)
    (ums : unordered_multiset T) : ostream :=
  let os := os.puts "\x7b"
  let r := ums.elems.foldl first_step (os, true)
  r.1.puts "\x7d"

/-- Multimap printing, `operator<<(ostream &, const multimap<K, V> &)`. -/
def operator_lshift_multimap {K V : Type} [Printable K] [Printable V] (os : ostream)
    (mm : multimap K V) : ostream :=
  let os := os.puts "\x7b"
  let r := mm.entries.foldl first_step_kv (os, true)
  r.1.puts "\x7d"

/-- Unordered multimap printing, `operator<<(ostream &, const unordered_multimap<K, V> &)`. -/
def operator_lshift_unordered_multimap {K V : Type} [Printable K] [Printable V]
    (os : ostream) (umm : unordered_multimap K V) : ostream :=
  let os := os.puts "\x7b"
  let r := umm.entries.foldl first_step_kv (os, true)
  r.1.puts "\x7d"

/-- Tuple printing, `operator<<(ostream &, const tuple<Ts...> &)`: the fold
`((os << sep << args, sep = ", "), ...)` runs over the elements from left to right; the loop
state is the stream and the string `sep`. -/
def operator_lshift_tuple (os : ostream) (t : tuple) : ostream :=
  let os := os.puts "("
  let r := t.elems.foldl
    (fun (st : ostream × String) (a : Arg) => ((st.1.puts st.2).puts a.render, ", "))
    (os, "")
  r.1.puts ")"

instance {T : Type} [Printable T] : Printable (multiset T) where
  is_container := true
  is_pair := false
  is_tuple := false
  render s := (operator_lshift_multiset ⟨""⟩ s).buf

instance {T : Type} [Printable T] : Printable (unordered_set T) where
  is_container := true
  is_pair := false
  is_tuple := false
  render s := (operator_lshift_unordered_set ⟨""⟩ s).buf

instance {T : Type} [Printable T] : Printable (unordered_multiset T) where
  is_container := true
  is_pair := false
  is_tuple := false
  render s := (operator_lshift_unordered_multiset ⟨""⟩ s).buf

instance {K V : Type} [Printable K] [Printable V] : Printable (multimap K V) where
  is_container := true
  is_pair := false
  is_tuple := false
  render m := (operator_lshift_multimap ⟨""⟩ m).buf

instance {K V : Type} [Printable K] [Printable V] : Printable (unordered_multimap K V) where
  is_container := true
  is_pair := false
  is_tuple := false
  render m := (operator_lshift_unordered_multimap ⟨""⟩ m).buf

/-! ## The macro `db` -/

/-- The macros defined when a translation unit is compiled (the `-D` flags). -/
structure Build where
  defined : List String

/-- The macro `db` of the header at a source line: under `#ifdef LOCAL` it expands to
`clog << db_LINE, db_out(#__VA_ARGS__, __VA_ARGS__)`, under `#else` to nothing. -/
def header_db (b : Build) (line : Nat) (clog : ostream) (names : String) (args : List Arg) :
    ostream :=
  if "LOCAL" ∈ b.defined then
    db_out (((clog.puts "[").puts (toString line)).puts "] ") names args
  else clog

/-- The macro `db` in a program that uses the include block of the usage comment: under
`#ifdef local` the header is included and `db` is the macro of the header, under `#else` the
program defines `db(...)` as nothing. -/
def program_db (b : Build) (line : Nat) (clog : ostream) (names : String) (args : List Arg) :
    ostream :=
  if "local" ∈ b.defined then header_db b line clog names args
  else clog

/-! ## Types and their classification -/

/-- The types the printers are used with. -/
inductive Ty where
  | int
  | c_str
  | std_string
  | modint
  | pair (a b : Ty)
  | tuple (ts : List Ty)
  | array (t : Ty) (n : Nat)
  | c_array (t : Ty) (n : Nat)
  | vector (t : Ty)
  | deque (t : Ty)
  | list (t : Ty)
  | set (t : Ty)
  | multiset (t : Ty)
  | unordered_set (t : Ty)
  | unordered_multiset (t : Ty)
  | map (k v : Ty)
  | multimap (k v : Ty)
  | unordered_map (k v : Ty)
  | unordered_multimap (k v : Ty)
  | stack (t : Ty)
  | queue (t : Ty)
  | priority_queue (t : Ty)

/-- Whether a value of the type has the members `begin()` and `end()` (standard library). -/
def Ty.has_begin_end : Ty → Bool
  | .std_string => true
  | .array _ _ => true
  | .vector _ => true
  | .deque _ => true
  | .list _ => true
  | .set _ => true
  | .multiset _ => true
  | .unordered_set _ => true
  | .unordered_multiset _ => true
  | .map _ _ => true
  | .multimap _ _ => true
  | .unordered_map _ _ => true
  | .unordered_multimap _ _ => true
  | _ => false

/-- The trait `is_container<T>`: the specialisation for types on which `begin()` and `end()`
are well-formed is `true_type`, the primary template `false_type`. -/
def Ty.is_container (t : Ty) : Bool := t.has_begin_end

/-- The trait `is_pair<T>`: `true_type` for `pair<T, U>`. -/
def Ty.is_pair : Ty → Bool
  | .pair _ _ => true
  | _ => false

/-- The trait `is_tuple<T>`: `true_type` for `tuple<Ts...>`. -/
def Ty.is_tuple : Ty → Bool
  | .tuple _ => true
  | _ => false

/-- The categories of the specification. -/
inductive Category where
  | Scalar
  | Pair
  | Tuple
  | Container
  | FixedAggregate
  | Adapter
deriving DecidableEq, Repr

/-- The category of a type in the words of the specification: the rule of its formatting
dispatcher that handles the type (strings are scalars, `std::array` and C arrays are
fixed-size aggregates, stack, queue and priority queue are adapters). -/
def Ty.category : Ty → Category
  | .int => .Scalar
  | .c_str => .Scalar
  | .std_string => .Scalar
  | .modint => .Scalar
  | .pair _ _ => .Pair
  | .tuple _ => .Tuple
  | .array _ _ => .FixedAggregate
  | .c_array _ _ => .FixedAggregate
  | .stack _ => .Adapter
  | .queue _ => .Adapter
  | .priority_queue _ => .Adapter
  | _ => .Container

/-- General form of the text of `db_out` for any number of segments and values: the values
are matched with the segments in order; the last segment ends the output with a line break,
and so does running out of values. -/
def db_text_any : List String → List Arg → String
  | _, [] => "\n"
  | [], _ :: _ => "\n"
  | [n], a :: _ => n ++ " = " ++ a.render ++ "\n"
  | n :: m :: ns, a :: as =>
    n ++ " = " ++ a.render ++ (if a.is_container then "\n" else " | ")
      ++ db_text_any (m :: ns) as

/-- The items `db_out` writes: the i-th value against the i-th segment, as many as there are
of both; an item on the last segment ends with a line break, any other with the separator
for the type of its value. -/
def db_items (segs : List String) (args : List Arg) : List String :=
  (List.zip segs args).enum.map (fun (ix : Nat × String × Arg) =>
    ix.2.1 ++ " = " ++ ix.2.2.render
      ++ (if ix.1 + 1 = segs.length then "\n"
          else if ix.2.2.is_container then "\n" else " | "))

/-- Concatenation of texts. -/
def concat_all : List String → String
  | [] => ""
  | s :: ss => s ++ concat_all ss

/-! ## Specification-side descriptions of the output -/

/-- Text of a comma-separated run of items when the flag `first` has the given value: every
item except a leading first one is preceded by `", "`. -/
def sep_join : Bool → List String → String
  | _, [] => ""
  | first, r :: rs => (if first then "" else ", ") ++ r ++ sep_join false rs

/-- The content lines of the multi-line layout: every item indented by two spaces and followed
by a comma, except that the last item has no comma. -/
def content_lines : List String → List String
  | [] => []
  | [r] => ["  " ++ r]
  | r :: r2 :: rs => ("  " ++ r ++ ",") :: content_lines (r2 :: rs)

/-- The content lines of the layout that ends every line with a comma. -/
def comma_lines (rs : List String) : List String := rs.map (fun r => "  " ++ r ++ ",")

/-- A block of lines, each ended by a line break. -/
def block : List String → String
  | [] => ""
  | l :: ls => l ++ "\n" ++ block ls

/-- Pieces of a character sequence between the occurrences of `c`. -/
def split_at (c : Char) : List Char → List (List Char)
  | [] => [[]]
  | d :: ds =>
    if d = c then [] :: split_at c ds
    else match split_at c ds with
      | [] => [[d]]
      | l :: ls => (d :: l) :: ls

/-- The lines of a text. -/
def lines (s : String) : List String := (split_at '\n' s.data).map String.mk

/-- The segments of a names string between its commas. -/
def segments (names : String) : List String := (split_at ',' names.data).map String.mk

/-- Text of a map entry, `k: v`. -/
def entry_text {K V : Type} [Printable K] [Printable V] (kv : K × V) : String :=
  render kv.1 ++ ": " ++ render kv.2

/-- The elements in the order successive `top()` and `pop()` yield them, for at most `n`
elements. -/
def removal_order {A T : Type} (top : A → Option T) (pop : A → A) : Nat → A → List T
  | 0, _ => []
  | n + 1, a =>
    match top a with
    | some x => x :: removal_order top pop n (pop a)
    | none => []

/-- The text `db_out` writes after the value of an item: a line break after the final item;
after any other item a line break when the type of the value is container-like and `" | "`
otherwise. -/
def separator_after (a : Arg) (final : Bool) : String :=
  if final then "\n" else if a.is_container then "\n" else " | "

/-- The items `name = value`, each followed by its separator, for names and values walked in
lockstep. -/
def db_text : List String → List Arg → String
  | n :: ns, a :: as =>
    n ++ " = " ++ a.render ++ separator_after a as.isEmpty ++ db_text ns as
  | _, _ => ""

/-- The requirement on `Compare`: a strict weak ordering. -/
structure StrictWeakOrder {T : Type} (comp : T → T → Bool) : Prop where
  asymm : ∀ a b, comp a b = true → comp b a = false
  neg_trans : ∀ a b c, comp a c = true → comp a b = true ∨ comp b c = true

/-- The heap property on the first `n` positions: no element is ordered after its parent. -/
def HeapRange {T : Type} (comp : T → T → Bool) (cs : List T) (n : Nat) : Prop :=
  ∀ i p x, 0 < i → i < n → cs[(i - 1) / 2]? = some p → cs[i]? = some x → comp p x = false

/-- The heap property on the first `n` positions around a hole at `h`: it holds wherever the
hole is not involved, and the parent of the hole is not ordered before a child of the hole. -/
def HeapHole {T : Type} (comp : T → T → Bool) (cs : List T) (n h : Nat) : Prop :=
  (∀ i p x, 0 < i → i < n → i ≠ h → (i - 1) / 2 ≠ h →
      cs[(i - 1) / 2]? = some p → cs[i]? = some x → comp p x = false)
  ∧ (∀ i g x, 0 < h → 0 < i → i < n → (i - 1) / 2 = h →
      cs[(h - 1) / 2]? = some g → cs[i]? = some x → comp g x = false)

/-- The invariant of a priority queue: its container is a heap for `comp`. -/
def priority_queue.is_heap {T : Type} (pq : priority_queue T) : Prop :=
  HeapRange pq.comp pq.c pq.c.length

/-! ## Auxiliary lemmas -/

theorem puts_buf (os : ostream) (s : String) : (os.puts s).buf = os.buf ++ s := rfl

theorem put_buf {T : Type} [Printable T] (os : ostream) (x : T) :
    (os.put x).buf = os.buf ++ render x := rfl

theorem ostream_ext {a b : ostream} (h : a.buf = b.buf) : a = b := by
  cases a; cases b; simp_all

theorem intercalate_go (rs : List String) (acc : String) :
    String.intercalate.go acc ", " rs = acc ++ sep_join false rs := by
  induction rs generalizing acc with
  | nil => simp [String.intercalate.go, sep_join]
  | cons r rs ih => simp [String.intercalate.go, ih, sep_join, String.append_assoc]

theorem sep_join_true (rs : List String) : sep_join true rs = ", ".intercalate rs := by
  cases rs with
  | nil => simp [sep_join, String.intercalate]
  | cons r rs => simp [sep_join, String.intercalate, intercalate_go]

theorem foldl_first_step {T : Type} [Printable T] (l : List T) (os : ostream) (first : Bool) :
    l.foldl first_step (os, first)
      = (⟨os.buf ++ sep_join first (l.map render)⟩, first && l.isEmpty) := by
  induction l generalizing os first with
  | nil => simp [sep_join]
  | cons x xs ih =>
    simp [List.foldl, first_step, ih, sep_join, ostream.puts, ostream.put, String.append_assoc]

theorem foldl_first_step_kv {K V : Type} [Printable K] [Printable V] (l : List (K × V))
    (os : ostream) (first : Bool) :
    l.foldl first_step_kv (os, first)
      = (⟨os.buf ++ sep_join first (l.map entry_text)⟩, first && l.isEmpty) := by
  induction l generalizing os first with
  | nil => simp [sep_join]
  | cons x xs ih =>
    simp [List.foldl, first_step_kv, ih, sep_join, ostream.puts, ostream.put, entry_text,
      String.append_assoc]

theorem foldl_index_step {T : Type} [Printable T] (l : List T) (os : ostream) (k : Nat) :
    (l.enumFrom k).foldl index_step os
      = ⟨os.buf ++ sep_join (k == 0) (l.map render)⟩ := by
  induction l generalizing os k with
  | nil => simp [sep_join]
  | cons x xs ih =>
    simp [List.enumFrom, List.foldl, index_step, ih, sep_join, ostream.puts, ostream.put,
      String.append_assoc]

theorem size_t_sub_one {n : Nat} (h0 : 0 < n) (h : n < 2 ^ 64) : size_t_sub n 1 = n - 1 := by
  unfold size_t_sub SIZE_T_MOD
  omega

theorem foldl_vector_lines {T : Type} [Printable T] (l : List T) (os : ostream) (k n : Nat)
    (hn : n = k + l.length) :
    (l.enumFrom k).foldl (fun (os : ostream) (ix : Nat × T) =>
        let os := os.puts "  " |>.put ix.2
        let os := if ix.1 != n - 1 then os.puts "," else os
        os.puts "\n") os
      = ⟨os.buf ++ block (content_lines (l.map render))⟩ := by
  induction l generalizing os k with
  | nil => simp [content_lines, block]
  | cons x xs ih =>
    cases xs with
    | nil =>
      subst hn
      simp [List.enumFrom, List.foldl, content_lines, block, ostream.puts, ostream.put,
        String.append_assoc]
    | cons y ys =>
      have hk : k ≠ n - 1 := by simp at hn; omega
      have := ih ((os.puts "  ").put x |>.puts "," |>.puts "\n") (k + 1)
        (by simp at hn ⊢; omega)
      simp [List.enumFrom, List.foldl, hk] at this ⊢
      rw [this]
      simp [content_lines, block, ostream.puts, ostream.put, String.append_assoc]

theorem foldl_map_lines {K V : Type} [Printable K] [Printable V] (l : List (K × V))
    (os : ostream) (k n : Nat) (hn : n = k + l.length) (hlt : n < 2 ^ 64) :
    (l.foldl (fun (st : ostream × Nat) (kv : K × V) =>
        let os := st.1.puts "  " |>.put kv.1 |>.puts ": " |>.put kv.2
        let os := if st.2 != n - 1 then os.puts "," else os
        (os.puts "\n", (st.2 + 1) % SIZE_T_MOD)) (os, k)).1
      = ⟨os.buf ++ block (content_lines (l.map entry_text))⟩ := by
  induction l generalizing os k with
  | nil => simp [content_lines, block]
  | cons x xs ih =>
    cases xs with
    | nil =>
      subst hn
      simp [List.foldl, content_lines, block, ostream.puts, ostream.put, entry_text,
        String.append_assoc]
    | cons y ys =>
      have hk : k ≠ n - 1 := by simp at hn; omega
      have hk1 : (k + 1) % SIZE_T_MOD = k + 1 := by
        unfold SIZE_T_MOD; simp at hn; omega
      have := ih ((os.puts "  ").put x.1 |>.puts ": " |>.put x.2 |>.puts "," |>.puts "\n")
        (k + 1) (by simp at hn ⊢; omega)
      simp [List.foldl, hk, hk1] at this ⊢
      rw [this]
      simp [content_lines, block, ostream.puts, ostream.put, entry_text, String.append_assoc]

theorem block_comma_cons (r : String) (rs : List String) :
    block (comma_lines (r :: rs)) = "  " ++ r ++ ",\n" ++ block (comma_lines rs) := by
  have h : ",\n" = "," ++ "\n" := by decide
  simp only [comma_lines, List.map, block, h, String.append_assoc]

theorem foldl_set_lines {T : Type} [Printable T] (l : List T) (os : ostream) :
    l.foldl (fun (os : ostream) (x : T) => os.puts "  " |>.put x |>.puts ",\n") os
      = ⟨os.buf ++ block (comma_lines (l.map render))⟩ := by
  induction l generalizing os with
  | nil => simp [comma_lines, block]
  | cons x xs ih =>
    rw [List.foldl, ih, List.map, block_comma_cons]
    simp only [ostream.puts, ostream.put, String.append_assoc]

theorem foldl_unordered_map_lines {K V : Type} [Printable K] [Printable V] (l : List (K × V))
    (os : ostream) :
    l.foldl (fun (os : ostream) (kv : K × V) =>
        os.puts "  " |>.put kv.1 |>.puts ": " |>.put kv.2 |>.puts ",\n") os
      = ⟨os.buf ++ block (comma_lines (l.map entry_text))⟩ := by
  induction l generalizing os with
  | nil => simp [comma_lines, block]
  | cons x xs ih =>
    rw [List.foldl, ih, List.map, block_comma_cons]
    simp only [ostream.puts, ostream.put, entry_text, String.append_assoc]

theorem hasLineBreak_append (a b : String) :
    hasLineBreak (a ++ b) = (hasLineBreak a || hasLineBreak b) := by
  simp [hasLineBreak, String.data_append, List.contains_eq_any_beq]

theorem hasLineBreak_sep_join (first : Bool) (rs : List String) :
    hasLineBreak (sep_join first rs) = rs.any hasLineBreak := by
  induction rs generalizing first with
  | nil => simp [sep_join]; decide
  | cons r rs ih =>
    have h1 : hasLineBreak ", " = false := by decide
    have h2 : hasLineBreak "" = false := by decide
    cases first <;> simp [sep_join, hasLineBreak_append, ih, h1, h2]

theorem split_at_ne_nil (c : Char) (l : List Char) : split_at c l ≠ [] := by
  cases l with
  | nil => simp [split_at]
  | cons d ds =>
    simp only [split_at]
    split
    · simp
    · split <;> simp

theorem split_at_append_no (c : Char) (a b : List Char) (ha : c ∉ a) :
    split_at c (a ++ c :: b) = a :: split_at c b := by
  induction a with
  | nil => simp [split_at]
  | cons d ds ih =>
    have hd : d ≠ c := by intro h; apply ha; simp [h]
    have hds : c ∉ ds := by intro h; apply ha; simp [h]
    simp [split_at, hd, ih hds]

theorem split_at_no (c : Char) (a : List Char) (ha : c ∉ a) : split_at c a = [a] := by
  induction a with
  | nil => simp [split_at]
  | cons d ds ih =>
    have hd : d ≠ c := by intro h; apply ha; simp [h]
    have hds : c ∉ ds := by intro h; apply ha; simp [h]
    simp [split_at, hd, ih hds]

/-! ## Pairs and sequences -/

/-- C7: a pair is written as `(`, its first component, `, `, its second component and `)`,
each component through the inserter of its own type; the printer only appends to the
stream. -/
theorem C7_pair_render {T U : Type} [Printable T] [Printable U] (os : ostream) (p : pair T U) :
    render p = "(" ++ render p.first ++ ", " ++ render p.second ++ ")"
    ∧ (operator_lshift_pair os p).buf = os.buf ++ render p := by
  have h : render p = (operator_lshift_pair ⟨""⟩ p).buf := rfl
  simp [h, operator_lshift_pair, ostream.puts, ostream.put, String.append_assoc]

theorem vector_flat {T : Type} [Printable T] (os : ostream) (v : vector T)
    (hT : (is_container T || is_pair T) = false) :
    (operator_lshift_vector os v).buf
      = os.buf ++ "[" ++ ", ".intercalate (v.elems.map render) ++ "]" := by
  simp [operator_lshift_vector, hT, List.enum, foldl_index_step, ostream.puts, sep_join_true]

theorem deque_flat {T : Type} [Printable T] (os : ostream) (d : deque T) :
    (operator_lshift_deque os d).buf
      = os.buf ++ "[" ++ ", ".intercalate (d.elems.map render) ++ "]" := by
  simp [operator_lshift_deque, List.enum, foldl_index_step, ostream.puts, sep_join_true]

theorem list_flat {T : Type} [Printable T] (os : ostream) (l : list T) :
    (operator_lshift_list os l).buf
      = os.buf ++ "[" ++ ", ".intercalate (l.elems.map render) ++ "]" := by
  simp [operator_lshift_list, foldl_first_step, ostream.puts, sep_join_true]

theorem hasLineBreak_bracketed (a b : String) (rs : List String)
    (ha : hasLineBreak a = false) (hb : hasLineBreak b = false) :
    hasLineBreak (a ++ ", ".intercalate rs ++ b) = rs.any hasLineBreak := by
  rw [← sep_join_true]
  simp [hasLineBreak_append, hasLineBreak_sep_join, ha, hb]

/-- C6: a vector, deque or list whose element type is neither container-like nor a pair is
written as `[`, the element texts in iteration order joined by `, `, and `]`, whatever its
size; the text has a line break only where an element text has one. -/
theorem C6_sequence_single_line {T : Type} [Printable T] (es : List T)
    (hT : (is_container T || is_pair T) = false) :
    render (vector.mk es) = "[" ++ ", ".intercalate (es.map render) ++ "]"
    ∧ (hasLineBreak (render (vector.mk es)) = true ↔ ∃ e ∈ es, hasLineBreak (render e) = true)
    ∧ render (deque.mk es) = "[" ++ ", ".intercalate (es.map render) ++ "]"
    ∧ (hasLineBreak (render (deque.mk es)) = true ↔ ∃ e ∈ es, hasLineBreak (render e) = true)
    ∧ render (list.mk es) = "[" ++ ", ".intercalate (es.map render) ++ "]"
    ∧ (hasLineBreak (render (list.mk es)) = true ↔ ∃ e ∈ es, hasLineBreak (render e) = true) := by
  have hv : ∀ v : vector T, render v = (operator_lshift_vector ⟨""⟩ v).buf := fun _ => rfl
  have hd : ∀ v : deque T, render v = (operator_lshift_deque ⟨""⟩ v).buf := fun _ => rfl
  have hl : ∀ v : list T, render v = (operator_lshift_list ⟨""⟩ v).buf := fun _ => rfl
  have ho : hasLineBreak "[" = false := by decide
  have hc : hasLineBreak "]" = false := by decide
  refine ⟨?_, ?_, ?_, ?_, ?_, ?_⟩
  · rw [hv, vector_flat _ _ hT]; simp
  · rw [hv, vector_flat _ _ hT]; simp [hasLineBreak_bracketed _ _ _ ho hc]
  · rw [hd, deque_flat]; simp
  · rw [hd, deque_flat]; simp [hasLineBreak_bracketed _ _ _ ho hc]
  · rw [hl, list_flat]; simp
  · rw [hl, list_flat]; simp [hasLineBreak_bracketed _ _ _ ho hc]

/-- C6, at a vector, a deque and a list holding the numbers 1, 2, 3. -/
theorem C6_sequence_single_line_witness :
    (is_container Int || is_pair Int) = false
    ∧ render (vector.mk [(1 : Int), 2, 3]) = "[" ++ ", ".intercalate ["1", "2", "3"] ++ "]" :=
  ⟨by decide, (C6_sequence_single_line [(1 : Int), 2, 3] (by decide)).1⟩

/-! ## Lines of a text -/

theorem mem_data_of_hasLineBreak {s : String} (h : hasLineBreak s = false) : '\n' ∉ s.data := by
  simpa [hasLineBreak] using h

theorem lines_single {t : String} (h : hasLineBreak t = false) : lines t = [t] := by
  simp [lines, split_at_no _ _ (mem_data_of_hasLineBreak h)]

theorem lines_cons {a : String} (t : String) (h : hasLineBreak a = false) :
    lines (a ++ "\n" ++ t) = a :: lines t := by
  have : (a ++ "\n" ++ t).data = a.data ++ '\n' :: t.data := by
    simp [String.data_append]
  simp [lines, this, split_at_append_no _ _ _ (mem_data_of_hasLineBreak h)]

theorem lines_block (ls : List String) (t : String) (h : ∀ l ∈ ls, hasLineBreak l = false) :
    lines (block ls ++ t) = ls ++ lines t := by
  induction ls with
  | nil => simp [block]
  | cons l ls ih =>
    have hl : hasLineBreak l = false := h l (by simp)
    have := lines_cons (block ls ++ t) hl
    simp only [block, String.append_assoc] at this ⊢
    rw [this, ih (fun x hx => h x (by simp [hx]))]
    simp

theorem content_lines_length (rs : List String) : (content_lines rs).length = rs.length := by
  induction rs with
  | nil => simp [content_lines]
  | cons r rs ih =>
    cases rs with
    | nil => simp [content_lines]
    | cons r2 rs => simp [content_lines] at ih ⊢; exact ih

theorem content_lines_no_break (rs : List String) (h : ∀ r ∈ rs, hasLineBreak r = false) :
    ∀ l ∈ content_lines rs, hasLineBreak l = false := by
  have h1 : hasLineBreak "  " = false := by decide
  have h2 : hasLineBreak "," = false := by decide
  induction rs with
  | nil => simp [content_lines]
  | cons r rs ih =>
    have hr : hasLineBreak r = false := h r (by simp)
    cases rs with
    | nil => simp [content_lines, hasLineBreak_append, h1, hr]
    | cons r2 rs =>
      intro l hl
      simp only [content_lines, List.mem_cons] at hl
      rcases hl with hl | hl
      · subst hl; simp [hasLineBreak_append, h1, h2, hr]
      · exact ih (fun x hx => h x (by simp [hx])) l (by simpa [content_lines] using hl)

theorem comma_lines_no_break (rs : List String) (h : ∀ r ∈ rs, hasLineBreak r = false) :
    ∀ l ∈ comma_lines rs, hasLineBreak l = false := by
  have h1 : hasLineBreak "  " = false := by decide
  have h2 : hasLineBreak "," = false := by decide
  intro l hl
  simp only [comma_lines, List.mem_map] at hl
  obtain ⟨r, hr, rfl⟩ := hl
  simp [hasLineBreak_append, h1, h2, h r hr]

theorem hasLineBreak_open_block (a : String) (t : String) :
    hasLineBreak (a ++ "\n" ++ t) = true := by
  have : hasLineBreak "\n" = true := by decide
  simp [hasLineBreak_append, this]

/-! ## Vectors of containers or pairs -/

theorem vector_nested {T : Type} [Printable T] (os : ostream) (v : vector T)
    (hT : (is_container T || is_pair T) = true) (he : v.empty = false)
    (hsz : v.size < 2 ^ 64) :
    (operator_lshift_vector os v).buf
      = os.buf ++ "[" ++ "\n" ++ block (content_lines (v.elems.map render)) ++ "]" := by
  have hpos : 0 < v.size := by
    unfold vector.size; unfold vector.empty at he
    cases h : v.elems <;> simp_all
  unfold operator_lshift_vector
  simp only [hT, he, size_t_sub_one hpos hsz, List.enum]
  simp only [if_true, Bool.not_false]
  rw [foldl_vector_lines v.elems _ 0 v.size (by simp [vector.size])]
  simp [ostream.puts, String.append_assoc]

/-- C5: a non-empty vector whose element type is container-like or a pair is written as `[`
and a line break, then every element in index order as two spaces, the element text, a comma
(not after the last element) and a line break, then `]`; when no element text has a line
break the text has exactly `size` content lines between the line `[` and the line `]`. -/
theorem C5_vector_nested_multiline {T : Type} [Printable T] (v : vector T)
    (hT : (is_container T || is_pair T) = true) (hne : v.empty = false)
    (hsz : v.size < 2 ^ 64) :
    render v = "[" ++ "\n" ++ block (content_lines (v.elems.map render)) ++ "]"
    ∧ ((∀ e ∈ v.elems, hasLineBreak (render e) = false) →
        lines (render v) = ["["] ++ content_lines (v.elems.map render) ++ ["]"]
        ∧ (content_lines (v.elems.map render)).length = v.size) := by
  have hv : render v = (operator_lshift_vector ⟨""⟩ v).buf := rfl
  have hr : render v = "[" ++ "\n" ++ block (content_lines (v.elems.map render)) ++ "]" := by
    rw [hv, vector_nested _ _ hT hne hsz]; simp
  refine ⟨hr, fun hnb => ⟨?_, ?_⟩⟩
  · rw [hr, String.append_assoc, lines_cons _ (by decide), lines_block, lines_single (by decide)]
    · simp
    · apply content_lines_no_break
      intro r hr
      simp only [List.mem_map] at hr
      obtain ⟨e, he, rfl⟩ := hr
      exact hnb e he
  · simp [content_lines_length, vector.size]

/-- C5, at the vector holding the vectors 1, 2 and 3. -/
theorem C5_vector_nested_multiline_witness :
    render (vector.mk [vector.mk [(1 : Int), 2], vector.mk [3]])
      = "[" ++ "\n" ++ block ["  [1, 2],", "  [3]"] ++ "]" :=
  (C5_vector_nested_multiline (vector.mk [vector.mk [(1 : Int), 2], vector.mk [3]])
    (by decide) (by decide) (by decide)).1

/-! ## Sets and maps -/

theorem set_small {T : Type} [Printable T] (os : ostream) (s : set T) (h : s.size ≤ 10) :
    (operator_lshift_set os s).buf
      = os.buf ++ "\x7b" ++ ", ".intercalate (s.elems.map render) ++ "\x7d" := by
  have h' : ¬ s.size > 10 := by omega
  simp [operator_lshift_set, h', foldl_first_step, ostream.puts, sep_join_true]

theorem set_large {T : Type} [Printable T] (os : ostream) (s : set T) (h : 10 < s.size) :
    (operator_lshift_set os s).buf
      = os.buf ++ "\x7b" ++ "\n" ++ block (comma_lines (s.elems.map render)) ++ "\x7d" := by
  have he : s.empty = false := by
    unfold set.empty; unfold set.size at h
    cases h' : s.elems <;> simp_all
  unfold operator_lshift_set
  simp only [gt_iff_lt, h, he, if_true, Bool.not_false]
  rw [foldl_set_lines]
  simp [ostream.puts, String.append_assoc]

/-- C8: a set whose element texts have no line break is written with a line break exactly
when it has more than 10 elements: up to 10 elements it is the single line of the element
texts joined by `, ` between braces, from 11 elements on it is the multi-line block. -/
theorem C8_set_threshold {T : Type} [Printable T] (s : set T)
    (hs : ∀ e ∈ s.elems, hasLineBreak (render e) = false) :
    (hasLineBreak (render s) = true ↔ 10 < s.size)
    ∧ (s.size ≤ 10 → render s = "\x7b" ++ ", ".intercalate (s.elems.map render) ++ "\x7d")
    ∧ (10 < s.size →
        render s = "\x7b" ++ "\n" ++ block (comma_lines (s.elems.map render)) ++ "\x7d") := by
  have hr : render s = (operator_lshift_set ⟨""⟩ s).buf := rfl
  have hsmall : s.size ≤ 10 →
      render s = "\x7b" ++ ", ".intercalate (s.elems.map render) ++ "\x7d" := by
    intro h; rw [hr, set_small _ _ h]; simp
  have hlarge : 10 < s.size →
      render s = "\x7b" ++ "\n" ++ block (comma_lines (s.elems.map render)) ++ "\x7d" := by
    intro h; rw [hr, set_large _ _ h]; simp
  refine ⟨?_, hsmall, hlarge⟩
  constructor
  · intro hb
    by_contra hle
    rw [hsmall (by omega), hasLineBreak_bracketed _ _ _ (by decide) (by decide)] at hb
    simp only [List.any_eq_true, List.mem_map] at hb
    obtain ⟨r, ⟨e, he, rfl⟩, hb⟩ := hb
    rw [hs e he] at hb
    exact Bool.false_ne_true hb
  · intro h
    rw [hlarge h, String.append_assoc, hasLineBreak_open_block]

/-- C8, at the boundary: the set of the numbers 1 to 10 is one line, the set of the numbers
1 to 11 has line breaks. -/
theorem C8_set_threshold_witness :
    render (set.mk [(1 : Int), 2, 3, 4, 5, 6, 7, 8, 9, 10])
      = "\x7b" ++ ", ".intercalate ["1", "2", "3", "4", "5", "6", "7", "8", "9", "10"] ++ "\x7d"
    ∧ hasLineBreak (render (set.mk [(1 : Int), 2, 3, 4, 5, 6, 7, 8, 9, 10, 11])) = true :=
  ⟨(C8_set_threshold (set.mk [(1 : Int), 2, 3, 4, 5, 6, 7, 8, 9, 10]) (by decide)).2.1
      (by decide),
   (C8_set_threshold (set.mk [(1 : Int), 2, 3, 4, 5, 6, 7, 8, 9, 10, 11]) (by decide)).1.mpr
      (by decide)⟩

/-- C10: the set of the numbers 1 to 11 is written in the multi-line layout with a comma at
the end of every element line, the last one included. -/
theorem C10_set_last_line_has_comma :
    lines (render (set.mk [(1 : Int), 2, 3, 4, 5, 6, 7, 8, 9, 10, 11]))
      = ["\x7b", "  1,", "  2,", "  3,", "  4,", "  5,", "  6,", "  7,", "  8,", "  9,",
         "  10,", "  11,", "\x7d"] := by
  decide

theorem map_flat {K V : Type} [Printable K] [Printable V] (os : ostream) (m : map K V)
    (h : (decide (m.size > 5) || is_container V) = false) :
    (operator_lshift_map os m).buf
      = os.buf ++ "\x7b" ++ ", ".intercalate (m.entries.map entry_text) ++ "\x7d" := by
  unfold operator_lshift_map
  simp only [h]
  simp [foldl_first_step_kv, ostream.puts, sep_join_true]

theorem map_block {K V : Type} [Printable K] [Printable V] (os : ostream) (m : map K V)
    (h : (decide (m.size > 5) || is_container V) = true) (he : m.empty = false)
    (hsz : m.size < 2 ^ 64) :
    (operator_lshift_map os m).buf
      = os.buf ++ "\x7b" ++ "\n" ++ block (content_lines (m.entries.map entry_text))
        ++ "\x7d" := by
  have hpos : 0 < m.size := by
    unfold map.size; unfold map.empty at he
    cases h' : m.entries <;> simp_all
  unfold operator_lshift_map
  simp only [h, he, size_t_sub_one hpos hsz, if_true, Bool.not_false]
  rw [foldl_map_lines m.entries _ 0 m.size (by simp [map.size]) hsz]
  simp [ostream.puts, String.append_assoc]

theorem unordered_map_flat {K V : Type} [Printable K] [Printable V] (os : ostream)
    (m : unordered_map K V) (h : (decide (m.size > 5) || is_container V) = false) :
    (operator_lshift_unordered_map os m).buf
      = os.buf ++ "\x7b" ++ ", ".intercalate (m.entries.map entry_text) ++ "\x7d" := by
  unfold operator_lshift_unordered_map
  simp only [h]
  simp [foldl_first_step_kv, ostream.puts, sep_join_true]

theorem unordered_map_block {K V : Type} [Printable K] [Printable V] (os : ostream)
    (m : unordered_map K V) (h : (decide (m.size > 5) || is_container V) = true)
    (he : m.empty = false) :
    (operator_lshift_unordered_map os m).buf
      = os.buf ++ "\x7b" ++ "\n" ++ block (comma_lines (m.entries.map entry_text))
        ++ "\x7d" := by
  unfold operator_lshift_unordered_map
  simp only [h, he, if_true, Bool.not_false]
  rw [foldl_unordered_map_lines]
  simp [ostream.puts, String.append_assoc]

/-- C9: a non-empty map or unordered map is written in the multi-line layout, a brace and a
line break followed by one line per entry, when it has more than 5 entries or its value type
is container-like, and otherwise as the single line of the entries `k: v` joined by `, `
between braces; the single line has no line break when no entry text has one. -/
theorem C9_map_threshold {K V : Type} [Printable K] [Printable V] (es : List (K × V))
    (hne : es ≠ []) (hsz : es.length < 2 ^ 64) :
    ((5 < es.length ∨ is_container V = true) →
        render (map.mk es)
          = "\x7b" ++ "\n" ++ block (content_lines (es.map entry_text)) ++ "\x7d"
        ∧ render (unordered_map.mk es)
          = "\x7b" ++ "\n" ++ block (comma_lines (es.map entry_text)) ++ "\x7d"
        ∧ hasLineBreak (render (map.mk es)) = true
        ∧ hasLineBreak (render (unordered_map.mk es)) = true)
    ∧ (¬ (5 < es.length ∨ is_container V = true) →
        render (map.mk es) = "\x7b" ++ ", ".intercalate (es.map entry_text) ++ "\x7d"
        ∧ render (unordered_map.mk es)
          = "\x7b" ++ ", ".intercalate (es.map entry_text) ++ "\x7d"
        ∧ ((∀ kv ∈ es, hasLineBreak (entry_text kv) = false) →
            hasLineBreak (render (map.mk es)) = false
            ∧ hasLineBreak (render (unordered_map.mk es)) = false)) := by
  have hm : ∀ m : map K V, render m = (operator_lshift_map ⟨""⟩ m).buf := fun _ => rfl
  have hu : ∀ m : unordered_map K V, render m = (operator_lshift_unordered_map ⟨""⟩ m).buf :=
    fun _ => rfl
  have he1 : (map.mk es).empty = false := by
    unfold map.empty; cases es <;> simp_all
  have he2 : (unordered_map.mk es).empty = false := by
    unfold unordered_map.empty; cases es <;> simp_all
  constructor
  · intro h
    have hc1 : (decide ((map.mk es).size > 5) || is_container V) = true := by
      simpa [map.size] using h
    have hc2 : (decide ((unordered_map.mk es).size > 5) || is_container V) = true := by
      simpa [unordered_map.size] using h
    have e1 := map_block ⟨""⟩ (map.mk es) hc1 he1 (by simpa [map.size] using hsz)
    have e2 := unordered_map_block ⟨""⟩ (unordered_map.mk es) hc2 he2
    simp only [String.empty_append] at e1 e2
    refine ⟨by rw [hm, e1], by rw [hu, e2], ?_, ?_⟩
    · rw [hm, e1, String.append_assoc, hasLineBreak_open_block]
    · rw [hu, e2, String.append_assoc, hasLineBreak_open_block]
  · intro h
    have hc1 : (decide ((map.mk es).size > 5) || is_container V) = false := by
      simpa [map.size] using h
    have hc2 : (decide ((unordered_map.mk es).size > 5) || is_container V) = false := by
      simpa [unordered_map.size] using h
    have e1 := map_flat ⟨""⟩ (map.mk es) hc1
    have e2 := unordered_map_flat ⟨""⟩ (unordered_map.mk es) hc2
    simp only [String.empty_append] at e1 e2
    refine ⟨by rw [hm, e1], by rw [hu, e2], fun hnb => ?_⟩
    have hany : (es.map entry_text).any hasLineBreak = false := by
      rw [List.any_eq_false]
      intro r hr
      simp only [List.mem_map] at hr
      obtain ⟨kv, hkv, rfl⟩ := hr
      simp [hnb kv hkv]
    rw [hm, hu, e1, e2, hasLineBreak_bracketed _ _ _ (by decide) (by decide)]
    exact ⟨hany, hany⟩

/-- C9, at the boundary: five entries with numbers as values are one line, six entries are
written in the multi-line layout, by the map and by the unordered map. -/
theorem C9_map_threshold_witness :
    render (map.mk [((1 : Int), (1 : Int)), (2, 4), (3, 9), (4, 16), (5, 25)])
      = "\x7b" ++ ", ".intercalate ["1: 1", "2: 4", "3: 9", "4: 16", "5: 25"] ++ "\x7d"
    ∧ hasLineBreak
        (render (map.mk [((1 : Int), (1 : Int)), (2, 4), (3, 9), (4, 16), (5, 25), (6, 36)]))
      = true :=
  ⟨((C9_map_threshold [((1 : Int), (1 : Int)), (2, 4), (3, 9), (4, 16), (5, 25)]
      (by simp) (by decide)).2 (by decide)).1,
   ((C9_map_threshold [((1 : Int), (1 : Int)), (2, 4), (3, 9), (4, 16), (5, 25), (6, 36)]
      (by simp) (by decide)).1 (by decide)).2.2.1⟩

/-! ## Inserters only append

The text `render x` is what the inserter of `x` writes on an empty stream; on any stream the
inserter appends exactly that text, so `os << x` inside another inserter is `ostream.put`. -/

theorem foldl_appends {S A : Type} (f : ostream × S → A → ostream × S)
    (hf : ∀ os s a, (f (os, s) a).1.buf = os.buf ++ (f (⟨""⟩, s) a).1.buf
      ∧ (f (os, s) a).2 = (f (⟨""⟩, s) a).2)
    (l : List A) (os : ostream) (s : S) :
    (l.foldl f (os, s)).1.buf = os.buf ++ (l.foldl f (⟨""⟩, s)).1.buf := by
  induction l generalizing os s with
  | nil => simp
  | cons a l ih =>
    simp only [List.foldl]
    have h1 := ih (f (os, s) a).1 (f (os, s) a).2
    have h2 := ih (f (⟨""⟩, s) a).1 (f (⟨""⟩, s) a).2
    simp only [Prod.mk.eta] at h1 h2
    rw [h1, h2, (hf os s a).1, (hf os s a).2, String.append_assoc]

theorem foldl_appends_plain {A : Type} (f : ostream → A → ostream)
    (hf : ∀ os a, (f os a).buf = os.buf ++ (f ⟨""⟩ a).buf)
    (l : List A) (os : ostream) :
    (l.foldl f os).buf = os.buf ++ (l.foldl f ⟨""⟩).buf := by
  induction l generalizing os with
  | nil => simp
  | cons a l ih =>
    simp only [List.foldl]
    rw [ih (f os a), ih (f ⟨""⟩ a), hf os a, String.append_assoc]

theorem vector_appends {T : Type} [Printable T] (os : ostream) (v : vector T) :
    (operator_lshift_vector os v).buf = os.buf ++ render v := by
  have hv : render v = (operator_lshift_vector ⟨""⟩ v).buf := rfl
  cases hT : (is_container T || is_pair T) with
  | false => rw [hv, vector_flat _ _ hT, vector_flat _ _ hT]; simp [String.append_assoc]
  | true =>
    rw [hv]
    unfold operator_lshift_vector
    simp only [hT, if_true]
    cases he : v.empty with
    | true => simp [ostream.puts, String.append_assoc]
    | false =>
      simp only [Bool.not_false, if_true, puts_buf]
      rw [foldl_appends_plain _ _ _ ((os.puts "[").puts "\n"),
        foldl_appends_plain _ _ _ (((⟨""⟩ : ostream).puts "[").puts "\n")]
      · simp [ostream.puts, String.append_assoc]
      · intro os a
        split <;> simp [ostream.puts, ostream.put, String.append_assoc]
      · intro os a
        split <;> simp [ostream.puts, ostream.put, String.append_assoc]

theorem map_appends {K V : Type} [Printable K] [Printable V] (os : ostream) (m : map K V) :
    (operator_lshift_map os m).buf = os.buf ++ render m := by
  have hm : render m = (operator_lshift_map ⟨""⟩ m).buf := rfl
  cases hc : (decide (m.size > 5) || is_container V) with
  | false => rw [hm, map_flat _ _ hc, map_flat _ _ hc]; simp [String.append_assoc]
  | true =>
    rw [hm]
    unfold operator_lshift_map
    simp only [hc, if_true]
    cases he : m.empty with
    | true => simp [ostream.puts, String.append_assoc]
    | false =>
      simp only [Bool.not_false, if_true, puts_buf]
      rw [foldl_appends _ _ _ ((os.puts "\x7b").puts "\n"),
        foldl_appends _ _ _ (((⟨""⟩ : ostream).puts "\x7b").puts "\n")]
      · simp [ostream.puts, String.append_assoc]
      · intro os s a
        split <;> simp [ostream.puts, ostream.put, String.append_assoc]
      · intro os s a
        split <;> simp [ostream.puts, ostream.put, String.append_assoc]

theorem set_appends {T : Type} [Printable T] (os : ostream) (s : set T) :
    (operator_lshift_set os s).buf = os.buf ++ render s := by
  have hs : render s = (operator_lshift_set ⟨""⟩ s).buf := rfl
  rcases Nat.lt_or_ge 10 s.size with h | h
  · rw [hs, set_large _ _ h, set_large _ _ h]; simp [String.append_assoc]
  · rw [hs, set_small _ _ h, set_small _ _ h]; simp [String.append_assoc]

theorem deque_appends {T : Type} [Printable T] (os : ostream) (d : deque T) :
    (operator_lshift_deque os d).buf = os.buf ++ render d := by
  have hd : render d = (operator_lshift_deque ⟨""⟩ d).buf := rfl
  rw [hd, deque_flat, deque_flat]; simp [String.append_assoc]

theorem list_appends {T : Type} [Printable T] (os : ostream) (l : list T) :
    (operator_lshift_list os l).buf = os.buf ++ render l := by
  have hl : render l = (operator_lshift_list ⟨""⟩ l).buf := rfl
  rw [hl, list_flat, list_flat]; simp [String.append_assoc]

theorem unordered_map_appends {K V : Type} [Printable K] [Printable V] (os : ostream)
    (m : unordered_map K V) : (operator_lshift_unordered_map os m).buf = os.buf ++ render m := by
  have hm : render m = (operator_lshift_unordered_map ⟨""⟩ m).buf := rfl
  cases hc : (decide (m.size > 5) || is_container V) with
  | false =>
    rw [hm, unordered_map_flat _ _ hc, unordered_map_flat _ _ hc]; simp [String.append_assoc]
  | true =>
    cases he : m.empty with
    | true =>
      rw [hm]; unfold operator_lshift_unordered_map
      simp [hc, he, ostream.puts, String.append_assoc]
    | false =>
      rw [hm, unordered_map_block _ _ hc he, unordered_map_block _ _ hc he]
      simp [String.append_assoc]

/-! ## Adapters -/

theorem drain_loop {A T : Type} [Printable T] (empty : A → Bool) (top : A → Option T)
    (pop : A → A) (size : A → Nat)
    (h0 : ∀ a, empty a = true ↔ size a = 0)
    (hstep : ∀ a, empty a = false → ∃ x, top a = some x ∧ size (pop a) + 1 = size a)
    (fuel : Nat) (s : Drain A) (hf : size s.a ≤ fuel) :
    ∃ a', empty a' = true ∧
      while_loop (fun (s : Drain A) => !empty s.a)
        (fun (s : Drain A) => match top s.a with
          | some x => { os := (s.os.puts (if s.first then "" else ", ")).put x,
                        a := pop s.a, first := false }
          | none => s) fuel s
      = some ({ os := ⟨s.os.buf ++
                  sep_join s.first ((removal_order top pop (size s.a) s.a).map render)⟩,
                first := s.first && empty s.a, a := a' }, size s.a) := by
  induction fuel generalizing s with
  | zero =>
    have hz : size s.a = 0 := by omega
    have he : empty s.a = true := (h0 _).mpr hz
    refine ⟨s.a, he, ?_⟩
    simp [while_loop, he, hz, removal_order, sep_join]
  | succ n ih =>
    cases he : empty s.a with
    | true =>
      have hz : size s.a = 0 := (h0 _).mp he
      refine ⟨s.a, he, ?_⟩
      simp [while_loop, he, hz, removal_order, sep_join]
    | false =>
      obtain ⟨x, hx, hsz⟩ := hstep _ he
      obtain ⟨a', ha', hl⟩ := ih
        { os := (s.os.puts (if s.first then "" else ", ")).put x, a := pop s.a, first := false }
        (by simp only; omega)
      refine ⟨a', ha', ?_⟩
      simp only [while_loop, he, hx, Bool.not_false, if_true, hl, Option.map_some']
      rw [← hsz]
      simp [removal_order, hx, sep_join, ostream.puts, ostream.put, String.append_assoc]

theorem removal_order_stack {T : Type} (n : Nat) (st : stack T) :
    removal_order stack.top stack.pop n st = st.c.take n := by
  induction n generalizing st with
  | zero => simp [removal_order]
  | succ n ih =>
    obtain ⟨c⟩ := st
    cases c with
    | nil => simp [removal_order, stack.top]
    | cons x xs => simp [removal_order, stack.top, stack.pop, ih]

theorem removal_order_queue {T : Type} (n : Nat) (q : queue T) :
    removal_order queue.front queue.pop n q = q.c.take n := by
  induction n generalizing q with
  | zero => simp [removal_order]
  | succ n ih =>
    obtain ⟨c⟩ := q
    cases c with
    | nil => simp [removal_order, queue.front]
    | cons x xs => simp [removal_order, queue.front, queue.pop, ih]

theorem stack_drain {T : Type} [Printable T] (fuel : Nat) (os : ostream) (st : stack T)
    (hf : st.size ≤ fuel) :
    ∃ r, operator_lshift_stack fuel os st = some r ∧ r.param.empty = true
      ∧ r.iterations = st.size
      ∧ r.os.buf = os.buf ++ "[" ++ ", ".intercalate
          ((removal_order stack.top stack.pop st.size st).map render) ++ "]" := by
  obtain ⟨a', ha', hl⟩ := drain_loop stack.empty stack.top stack.pop stack.size
    (by intro a; cases h : a.c <;> simp [stack.empty, stack.size, h])
    (by intro a h
        obtain ⟨c⟩ := a
        cases c with
        | nil => simp [stack.empty] at h
        | cons x xs => exact ⟨x, by simp [stack.top, stack.pop, stack.size]⟩)
    fuel { os := os.puts "[", first := true, a := st } hf
  refine ⟨_, by unfold operator_lshift_stack; simp only [hl]; rfl, ha', rfl, ?_⟩
  simp [ostream.puts, sep_join_true, String.append_assoc]

theorem queue_drain {T : Type} [Printable T] (fuel : Nat) (os : ostream) (q : queue T)
    (hf : q.size ≤ fuel) :
    ∃ r, operator_lshift_queue fuel os q = some r ∧ r.param.empty = true
      ∧ r.iterations = q.size
      ∧ r.os.buf = os.buf ++ "[" ++ ", ".intercalate
          ((removal_order queue.front queue.pop q.size q).map render) ++ "]" := by
  obtain ⟨a', ha', hl⟩ := drain_loop queue.empty queue.front queue.pop queue.size
    (by intro a; cases h : a.c <;> simp [queue.empty, queue.size, h])
    (by intro a h
        obtain ⟨c⟩ := a
        cases c with
        | nil => simp [queue.empty] at h
        | cons x xs => exact ⟨x, by simp [queue.front, queue.pop, queue.size]⟩)
    fuel { os := os.puts "[", first := true, a := q } hf
  refine ⟨_, by unfold operator_lshift_queue; simp only [hl]; rfl, ha', rfl, ?_⟩
  simp [ostream.puts, sep_join_true, String.append_assoc]

theorem set_perm_cons {T : Type} (ys : List T) (j : Nat) (b y : T) (h : ys[j]? = some b) :
    (b :: ys.set j y).Perm (y :: ys) := by
  induction ys generalizing j with
  | nil => simp at h
  | cons z zs ih =>
    cases j with
    | zero =>
      simp at h; subst h
      simp only [List.set_cons_zero]
      exact List.Perm.swap _ _ _
    | succ j =>
      simp at h
      simp only [List.set_cons_succ]
      exact (List.Perm.swap _ _ _).trans
        ((List.Perm.cons z (ih j h)).trans (List.Perm.swap _ _ _))

theorem swap_perm {T : Type} (l : List T) (i j : Nat) (a b : T) (hij : i ≠ j)
    (ha : l[i]? = some a) (hb : l[j]? = some b) : ((l.set i b).set j a).Perm l := by
  induction l generalizing i j with
  | nil => simp at ha
  | cons y ys ih =>
    cases i with
    | zero =>
      cases j with
      | zero => exact absurd rfl hij
      | succ j =>
        simp at ha hb; subst ha
        simp only [List.set_cons_zero, List.set_cons_succ]
        exact set_perm_cons ys j b _ hb
    | succ i =>
      cases j with
      | zero =>
        simp at ha hb; subst hb
        simp only [List.set_cons_zero, List.set_cons_succ]
        exact set_perm_cons ys i a _ ha
      | succ j =>
        simp at ha hb
        simp only [List.set_cons_succ]
        exact List.Perm.cons y (ih i j (by omega) ha hb)

theorem not_comp_trans {T : Type} {comp : T → T → Bool} (hc : StrictWeakOrder comp)
    {a b c : T} (hab : comp a b = false) (hbc : comp b c = false) : comp a c = false := by
  cases h : comp a c with
  | false => rfl
  | true =>
    rcases hc.neg_trans a b c h with h1 | h1
    · rw [hab] at h1; exact absurd h1 (by simp)
    · rw [hbc] at h1; exact absurd h1 (by simp)

theorem comp_irrefl {T : Type} {comp : T → T → Bool} (hc : StrictWeakOrder comp) (a : T) :
    comp a a = false := by
  cases h : comp a a with
  | false => rfl
  | true => have := hc.asymm a a h; simp [h] at this

theorem heap_top_greatest {T : Type} {comp : T → T → Bool} (hc : StrictWeakOrder comp)
    (cs : List T) (n : Nat) (hh : HeapRange comp cs n) (hn : n ≤ cs.length) (t : T)
    (ht : cs[0]? = some t) : ∀ i x, i < n → cs[i]? = some x → comp t x = false := by
  intro i
  induction i using Nat.strong_induction_on with
  | _ i ih =>
    intro x hi hx
    rcases Nat.eq_zero_or_pos i with h0 | hpos
    · subst h0
      rw [ht] at hx
      cases hx
      exact comp_irrefl hc _
    · have hp : (i - 1) / 2 < i := by omega
      have hpl : (i - 1) / 2 < cs.length := by omega
      have hpe : cs[(i - 1) / 2]? = some cs[(i - 1) / 2] := List.getElem?_eq_getElem hpl
      exact not_comp_trans hc (ih _ hp _ (by omega) hpe) (hh i _ x hpos hi hpe hx)


theorem place_value {T : Type} {comp : T → T → Bool} (cs : List T) (n h : Nat) (value : T)
    (hn : n ≤ cs.length) (hh : HeapHole comp cs n h)
    (hch : ∀ i x, 0 < i → i < n → (i - 1) / 2 = h → cs[i]? = some x → comp value x = false)
    (hpar : 0 < h → ∀ p, cs[(h - 1) / 2]? = some p → comp p value = false) :
    HeapRange comp (cs.set h value) n := by
  intro i p x hi hin hp hx
  by_cases hih : i = h
  · subst hih
    have hne : i ≠ (i - 1) / 2 := by omega
    rw [List.getElem?_set_ne hne] at hp
    rw [List.getElem?_set_self (by omega)] at hx
    cases hx
    exact hpar hi p hp
  · rw [List.getElem?_set_ne (Ne.symm hih)] at hx
    by_cases hph : (i - 1) / 2 = h
    · rw [hph, List.getElem?_set_self (by omega)] at hp
      cases hp
      exact hch i x hi hin hph hx
    · rw [List.getElem?_set_ne (Ne.symm hph)] at hp
      exact hh.1 i p x hi hin hih hph hp hx

theorem push_heap_hole_spec {T : Type} {comp : T → T → Bool} (hc : StrictWeakOrder comp)
    (value : T) (n : Nat) (fuel : Nat) (cs : List T) (h : Nat)
    (hf : h ≤ fuel) (hhn : h < n) (hn : n ≤ cs.length) (hh : HeapHole comp cs n h)
    (hch : ∀ i x, 0 < i → i < n → (i - 1) / 2 = h → cs[i]? = some x → comp value x = false) :
    HeapRange comp (push_heap_hole comp value 0 fuel cs h) n
    ∧ (push_heap_hole comp value 0 fuel cs h).length = cs.length
    ∧ (push_heap_hole comp value 0 fuel cs h).Perm (cs.set h value)
    ∧ ∀ j, n ≤ j → (push_heap_hole comp value 0 fuel cs h)[j]? = cs[j]? := by
  induction fuel generalizing cs h with
  | zero =>
    have h0 : h = 0 := by omega
    subst h0
    refine ⟨place_value cs n 0 value hn hh hch (fun hp => absurd hp (by omega)), ?_,
      List.Perm.refl _, ?_⟩
    · simp [push_heap_hole]
    · intro j hj
      simp only [push_heap_hole]
      exact List.getElem?_set_ne (by omega)
  | succ fuel ih =>
    have hpl : (h - 1) / 2 < cs.length := by omega
    have hpe : cs[(h - 1) / 2]? = some cs[(h - 1) / 2] := List.getElem?_eq_getElem hpl
    simp only [push_heap_hole, hpe]
    by_cases hcond : (decide (h > 0) && comp cs[(h - 1) / 2] value) = true
    · simp only [hcond, if_true]
      simp only [Bool.and_eq_true, decide_eq_true_eq] at hcond
      obtain ⟨hpos, hcmp⟩ := hcond
      have hne : h ≠ (h - 1) / 2 := by omega
      -- invariants for the new hole
      have hh' : HeapHole comp (cs.set h cs[(h - 1) / 2]) n ((h - 1) / 2) := by
        constructor
        · intro i p x hi hin hip hipp hp hx
          by_cases hih : i = h
          · subst hih; exact absurd rfl hipp
          · rw [List.getElem?_set_ne (Ne.symm hih)] at hx
            by_cases hph : (i - 1) / 2 = h
            · rw [hph, List.getElem?_set_self (by omega)] at hp
              cases hp
              exact hh.2 i _ x hpos hi hin hph hpe hx
            · rw [List.getElem?_set_ne (Ne.symm hph)] at hp
              exact hh.1 i p x hi hin hih hph hp hx
        · intro i g x hppos hi hin hip hg hx
          have hgne : h ≠ ((h - 1) / 2 - 1) / 2 := by omega
          rw [List.getElem?_set_ne hgne] at hg
          have hgp : comp g cs[(h - 1) / 2] = false :=
            hh.1 ((h - 1) / 2) g _ hppos (by omega) (Ne.symm hne) (by omega) hg hpe
          by_cases hih : i = h
          · subst hih
            rw [List.getElem?_set_self (by omega)] at hx
            cases hx
            exact hgp
          · rw [List.getElem?_set_ne (Ne.symm hih)] at hx
            exact not_comp_trans hc hgp
              (hh.1 i _ x hi hin hih (by omega) (by rw [hip]; exact hpe) hx)
      have hch' : ∀ i x, 0 < i → i < n → (i - 1) / 2 = (h - 1) / 2 →
          (cs.set h cs[(h - 1) / 2])[i]? = some x → comp value x = false := by
        intro i x hi hin hip hx
        have hvp : comp value cs[(h - 1) / 2] = false := hc.asymm _ _ hcmp
        by_cases hih : i = h
        · subst hih
          rw [List.getElem?_set_self (by omega)] at hx
          cases hx
          exact hvp
        · rw [List.getElem?_set_ne (Ne.symm hih)] at hx
          exact not_comp_trans hc hvp
            (hh.1 i _ x hi hin hih (by omega) (by rw [hip]; exact hpe) hx)
      obtain ⟨r1, r2, r3, r4⟩ := ih (cs.set h cs[(h - 1) / 2]) ((h - 1) / 2) (by omega)
        (by omega) (by simpa using hn) hh' hch'
      refine ⟨r1, by simpa using r2, ?_, ?_⟩
      · refine r3.trans ?_
        have hl1 : (cs.set h value)[h]? = some value := List.getElem?_set_self (by omega)
        have hl2 : (cs.set h value)[(h - 1) / 2]? = some cs[(h - 1) / 2] := by
          rw [List.getElem?_set_ne hne]; exact hpe
        have := swap_perm (cs.set h value) h ((h - 1) / 2) value cs[(h - 1) / 2] hne hl1 hl2
        rwa [List.set_set] at this
      · intro j hj
        rw [r4 j hj]
        exact List.getElem?_set_ne (by omega)
    · simp only [hcond, Bool.false_eq_true, if_false]
      refine ⟨place_value cs n h value hn hh hch ?_, by simp, List.Perm.refl _, ?_⟩
      · intro hpos p hp
        rw [hpe] at hp
        cases hp
        simp only [Bool.and_eq_true, decide_eq_true_eq, not_and, Bool.not_eq_true] at hcond
        exact hcond hpos
      · intro j hj
        exact List.getElem?_set_ne (by omega)


theorem hole_step {T : Type} {comp : T → T → Bool} (cs : List T) (len h s : Nat) (x : T)
    (hn : len ≤ cs.length) (hh : HeapHole comp cs len h) (hs : s < len) (hs0 : 0 < s)
    (hsp : (s - 1) / 2 = h) (hx : cs[s]? = some x)
    (hoth : ∀ i y, 0 < i → i < len → (i - 1) / 2 = h → i ≠ s → cs[i]? = some y →
      comp x y = false) :
    HeapHole comp (cs.set h x) len s
    ∧ ∀ v, (((cs.set h x).set s v).Perm (cs.set h v)) := by
  have hhs : h ≠ s := by omega
  have hhl : h < cs.length := by omega
  refine ⟨⟨?_, ?_⟩, ?_⟩
  · intro i p y hi hin his hips hp hy
    by_cases hih : i = h
    · subst hih
      have hne : i ≠ (i - 1) / 2 := by omega
      rw [List.getElem?_set_ne hne] at hp
      rw [List.getElem?_set_self hhl] at hy
      cases hy
      exact hh.2 s p x hi hs0 hs hsp hp hx
    · rw [List.getElem?_set_ne (Ne.symm hih)] at hy
      by_cases hph : (i - 1) / 2 = h
      · rw [hph, List.getElem?_set_self hhl] at hp
        cases hp
        exact hoth i y hi hin hph his hy
      · rw [List.getElem?_set_ne (Ne.symm hph)] at hp
        exact hh.1 i p y hi hin hih hph hp hy
  · intro i g y _ hi hin hip hg hy
    rw [hsp, List.getElem?_set_self hhl] at hg
    cases hg
    have hih : i ≠ h := by omega
    rw [List.getElem?_set_ne (Ne.symm hih)] at hy
    exact hh.1 i _ y hi hin hih (by omega) (by rw [hip]; exact hx) hy
  · intro v
    have hl1 : (cs.set h v)[h]? = some v := List.getElem?_set_self hhl
    have hl2 : (cs.set h v)[s]? = some x := by
      rw [List.getElem?_set_ne hhs]; exact hx
    have := swap_perm (cs.set h v) h s v x hhs hl1 hl2
    rwa [List.set_set] at this

theorem adjust_heap_down_spec {T : Type} {comp : T → T → Bool} (hc : StrictWeakOrder comp)
    (len fuel : Nat) (cs : List T) (h : Nat)
    (hf : len ≤ h + fuel) (hhn : h < len) (hn : len ≤ cs.length)
    (hh : HeapHole comp cs len h) :
    HeapHole comp (adjust_heap_down comp len fuel cs h).1 len
        (adjust_heap_down comp len fuel cs h).2
    ∧ (adjust_heap_down comp len fuel cs h).2 < len
    ∧ (adjust_heap_down comp len fuel cs h).1.length = cs.length
    ∧ ¬ ((adjust_heap_down comp len fuel cs h).2 < (len - 1) / 2)
    ∧ (∀ v, (((adjust_heap_down comp len fuel cs h).1.set
          (adjust_heap_down comp len fuel cs h).2 v).Perm (cs.set h v)))
    ∧ ∀ j, len ≤ j → (adjust_heap_down comp len fuel cs h).1[j]? = cs[j]? := by
  induction fuel generalizing cs h with
  | zero => omega
  | succ fuel ih =>
    by_cases hlt : h < (len - 1) / 2
    · have h2 : 2 * (h + 1) < cs.length := by omega
      have h1 : 2 * (h + 1) - 1 < cs.length := by omega
      have e2 : cs[2 * (h + 1)]? = some cs[2 * (h + 1)] := List.getElem?_eq_getElem h2
      have e1 : cs[2 * (h + 1) - 1]? = some cs[2 * (h + 1) - 1] := List.getElem?_eq_getElem h1
      simp only [adjust_heap_down, hlt, if_true, e2, e1]
      cases hcmp : comp cs[2 * (h + 1)] cs[2 * (h + 1) - 1] with
      | true =>
        simp only [if_true]
        obtain ⟨s1, s2⟩ := hole_step cs len h (2 * (h + 1) - 1) cs[2 * (h + 1) - 1] hn hh
          (by omega) (by omega) (by omega) e1 (by
            intro i y hi hin hip his hy
            have : i = 2 * (h + 1) := by omega
            subst this
            rw [e2] at hy
            cases hy
            exact hc.asymm _ _ hcmp)
        obtain ⟨r1, r2, r3, r4, r5, r6⟩ := ih (cs.set h cs[2 * (h + 1) - 1])
          (2 * (h + 1) - 1) (by omega) (by omega) (by simpa using hn) s1
        refine ⟨r1, r2, by simpa using r3, r4, fun v => (r5 v).trans (s2 v), ?_⟩
        intro j hj
        rw [r6 j hj]
        exact List.getElem?_set_ne (by omega)
      | false =>
        simp only [Bool.false_eq_true, if_false]
        obtain ⟨s1, s2⟩ := hole_step cs len h (2 * (h + 1)) cs[2 * (h + 1)] hn hh
          (by omega) (by omega) (by omega) e2 (by
            intro i y hi hin hip his hy
            have : i = 2 * (h + 1) - 1 := by omega
            subst this
            rw [e1] at hy
            cases hy
            exact hcmp)
        obtain ⟨r1, r2, r3, r4, r5, r6⟩ := ih (cs.set h cs[2 * (h + 1)])
          (2 * (h + 1)) (by omega) (by omega) (by simpa using hn) s1
        refine ⟨r1, r2, by simpa using r3, r4, fun v => (r5 v).trans (s2 v), ?_⟩
        intro j hj
        rw [r6 j hj]
        exact List.getElem?_set_ne (by omega)
    · have e : adjust_heap_down comp len (fuel + 1) cs h = (cs, h) := by
        simp [adjust_heap_down, hlt]
      rw [e]
      exact ⟨hh, hhn, rfl, hlt, fun v => List.Perm.refl _, fun j _ => rfl⟩


theorem adjust_heap_spec {T : Type} {comp : T → T → Bool} (hc : StrictWeakOrder comp)
    (cs : List T) (len : Nat) (value : T) (hlen : 0 < len) (hn : len ≤ cs.length)
    (hh : HeapHole comp cs len 0) :
    HeapRange comp (adjust_heap comp cs 0 len value) len
    ∧ (adjust_heap comp cs 0 len value).length = cs.length
    ∧ (adjust_heap comp cs 0 len value).Perm (cs.set 0 value)
    ∧ ∀ j, len ≤ j → (adjust_heap comp cs 0 len value)[j]? = cs[j]? := by
  obtain ⟨d1, d2, d3, d4, d5, d6⟩ := adjust_heap_down_spec hc len len cs 0 (by omega) hlen hn hh
  unfold adjust_heap
  generalize adjust_heap_down comp len len cs 0 = r at d1 d2 d3 d4 d5 d6
  obtain ⟨c1, h1⟩ := r
  simp only at d1 d2 d3 d4 d5 d6 ⊢
  by_cases hcond : (decide (len % 2 = 0) && decide (h1 = (len - 2) / 2)) = true
  · simp only [hcond, if_true]
    simp only [Bool.and_eq_true, decide_eq_true_eq] at hcond
    obtain ⟨hev, hh1⟩ := hcond
    have hl : 2 * (h1 + 1) - 1 < c1.length := by omega
    have el : c1[2 * (h1 + 1) - 1]? = some c1[2 * (h1 + 1) - 1] := List.getElem?_eq_getElem hl
    simp only [el]
    obtain ⟨s1, s2⟩ := hole_step c1 len h1 (2 * (h1 + 1) - 1) c1[2 * (h1 + 1) - 1]
      (by omega) d1 (by omega) (by omega) (by omega) el (by
        intro i y hi hin hip his hy
        omega)
    obtain ⟨p1, p2, p3, p4⟩ := push_heap_hole_spec hc value len (2 * (h1 + 1) - 1)
      (c1.set h1 c1[2 * (h1 + 1) - 1]) (2 * (h1 + 1) - 1) (Nat.le_refl _) (by omega)
      (by simp; omega) s1 (by
        intro i x hi hin hip hx
        omega)
    refine ⟨p1, by simp [p2, d3], (p3.trans (s2 value)).trans (d5 value), ?_⟩
    intro j hj
    rw [p4 j hj, List.getElem?_set_ne (by omega), d6 j hj]
  · simp only [hcond, Bool.false_eq_true, if_false]
    simp only [Bool.and_eq_true, decide_eq_true_eq, not_and] at hcond
    obtain ⟨p1, p2, p3, p4⟩ := push_heap_hole_spec hc value len h1 c1 h1 (Nat.le_refl _) d2
      (by omega) d1 (by
        intro i x hi hin hip hx
        by_cases hev : len % 2 = 0
        · have := hcond hev
          omega
        · omega)
    refine ⟨p1, by simp [p2, d3], p3.trans (d5 value), ?_⟩
    intro j hj
    rw [p4 j hj, d6 j hj]


theorem hole_move_perm {T : Type} (cs : List T) (h s : Nat) (x v : T) (hhs : h ≠ s)
    (hhl : h < cs.length) (hx : cs[s]? = some x) :
    ((cs.set h x).set s v).Perm (cs.set h v) := by
  have hl1 : (cs.set h v)[h]? = some v := List.getElem?_set_self hhl
  have hl2 : (cs.set h v)[s]? = some x := by
    rw [List.getElem?_set_ne hhs]; exact hx
  have := swap_perm (cs.set h v) h s v x hhs hl1 hl2
  rwa [List.set_set] at this

theorem push_heap_hole_basic {T : Type} (comp : T → T → Bool) (value : T) (topIndex : Nat)
    (fuel : Nat) (cs : List T) (h : Nat) (hl : h < cs.length) :
    (push_heap_hole comp value topIndex fuel cs h).length = cs.length
    ∧ (push_heap_hole comp value topIndex fuel cs h).Perm (cs.set h value)
    ∧ ∀ j, h < j → (push_heap_hole comp value topIndex fuel cs h)[j]? = cs[j]? := by
  induction fuel generalizing cs h with
  | zero =>
    simp only [push_heap_hole]
    exact ⟨by simp, List.Perm.refl _, fun j hj => List.getElem?_set_ne (by omega)⟩
  | succ fuel ih =>
    have hpl : (h - 1) / 2 < cs.length := by omega
    have hpe : cs[(h - 1) / 2]? = some cs[(h - 1) / 2] := List.getElem?_eq_getElem hpl
    simp only [push_heap_hole, hpe]
    by_cases hcond : (decide (h > topIndex) && comp cs[(h - 1) / 2] value) = true
    · simp only [hcond, if_true]
      simp only [Bool.and_eq_true, decide_eq_true_eq] at hcond
      have hne : h ≠ (h - 1) / 2 := by omega
      obtain ⟨r1, r2, r3⟩ := ih (cs.set h cs[(h - 1) / 2]) ((h - 1) / 2) (by simpa using hpl)
      refine ⟨by simpa using r1, r2.trans (hole_move_perm cs h _ _ value hne hl hpe), ?_⟩
      intro j hj
      rw [r3 j (by omega)]
      exact List.getElem?_set_ne (by omega)
    · simp only [hcond, Bool.false_eq_true, if_false]
      exact ⟨by simp, List.Perm.refl _, fun j hj => List.getElem?_set_ne (by omega)⟩

theorem adjust_heap_down_basic {T : Type} (comp : T → T → Bool) (len fuel : Nat)
    (cs : List T) (h : Nat) (hhn : h < len) (hn : len ≤ cs.length) :
    (adjust_heap_down comp len fuel cs h).2 < len
    ∧ (adjust_heap_down comp len fuel cs h).1.length = cs.length
    ∧ (∀ v, (((adjust_heap_down comp len fuel cs h).1.set
          (adjust_heap_down comp len fuel cs h).2 v).Perm (cs.set h v)))
    ∧ ∀ j, len ≤ j → (adjust_heap_down comp len fuel cs h).1[j]? = cs[j]? := by
  induction fuel generalizing cs h with
  | zero =>
    have e : adjust_heap_down comp len 0 cs h = (cs, h) := rfl
    rw [e]
    exact ⟨hhn, rfl, fun v => List.Perm.refl _, fun j _ => rfl⟩
  | succ fuel ih =>
    by_cases hlt : h < (len - 1) / 2
    · have h2 : 2 * (h + 1) < cs.length := by omega
      have h1 : 2 * (h + 1) - 1 < cs.length := by omega
      have e2 : cs[2 * (h + 1)]? = some cs[2 * (h + 1)] := List.getElem?_eq_getElem h2
      have e1 : cs[2 * (h + 1) - 1]? = some cs[2 * (h + 1) - 1] := List.getElem?_eq_getElem h1
      simp only [adjust_heap_down, hlt, if_true, e2, e1]
      cases hcmp : comp cs[2 * (h + 1)] cs[2 * (h + 1) - 1] with
      | true =>
        simp only [if_true]
        obtain ⟨r2, r3, r5, r6⟩ := ih (cs.set h cs[2 * (h + 1) - 1])
          (2 * (h + 1) - 1) (by omega) (by simpa using hn)
        refine ⟨r2, by simpa using r3, fun v => (r5 v).trans
          (hole_move_perm cs h _ _ v (by omega) (by omega) e1), ?_⟩
        intro j hj
        rw [r6 j hj]
        exact List.getElem?_set_ne (by omega)
      | false =>
        simp only [Bool.false_eq_true, if_false]
        obtain ⟨r2, r3, r5, r6⟩ := ih (cs.set h cs[2 * (h + 1)])
          (2 * (h + 1)) (by omega) (by simpa using hn)
        refine ⟨r2, by simpa using r3, fun v => (r5 v).trans
          (hole_move_perm cs h _ _ v (by omega) (by omega) e2), ?_⟩
        intro j hj
        rw [r6 j hj]
        exact List.getElem?_set_ne (by omega)
    · have e : adjust_heap_down comp len (fuel + 1) cs h = (cs, h) := by
        simp [adjust_heap_down, hlt]
      rw [e]
      exact ⟨hhn, rfl, fun v => List.Perm.refl _, fun j _ => rfl⟩

theorem adjust_heap_basic {T : Type} (comp : T → T → Bool) (cs : List T) (len : Nat)
    (value : T) (hlen : 0 < len) (hn : len ≤ cs.length) :
    (adjust_heap comp cs 0 len value).length = cs.length
    ∧ (adjust_heap comp cs 0 len value).Perm (cs.set 0 value)
    ∧ ∀ j, len ≤ j → (adjust_heap comp cs 0 len value)[j]? = cs[j]? := by
  obtain ⟨d2, d3, d5, d6⟩ := adjust_heap_down_basic comp len len cs 0 hlen hn
  unfold adjust_heap
  generalize adjust_heap_down comp len len cs 0 = r at d2 d3 d5 d6
  obtain ⟨c1, h1⟩ := r
  simp only at d2 d3 d5 d6 ⊢
  by_cases hcond : (decide (len % 2 = 0) && decide (h1 = (len - 2) / 2)) = true
  · simp only [hcond, if_true]
    simp only [Bool.and_eq_true, decide_eq_true_eq] at hcond
    obtain ⟨hev, hh1⟩ := hcond
    have hl : 2 * (h1 + 1) - 1 < c1.length := by omega
    have el : c1[2 * (h1 + 1) - 1]? = some c1[2 * (h1 + 1) - 1] := List.getElem?_eq_getElem hl
    simp only [el]
    obtain ⟨p2, p3, p4⟩ := push_heap_hole_basic comp value 0 (2 * (h1 + 1) - 1)
      (c1.set h1 c1[2 * (h1 + 1) - 1]) (2 * (h1 + 1) - 1) (by simpa using hl)
    refine ⟨by simp [p2, d3], (p3.trans
      (hole_move_perm c1 h1 _ _ value (by omega) (by omega) el)).trans (d5 value), ?_⟩
    intro j hj
    rw [p4 j (by omega), List.getElem?_set_ne (by omega), d6 j hj]
  · simp only [hcond, Bool.false_eq_true, if_false]
    obtain ⟨p2, p3, p4⟩ := push_heap_hole_basic comp value 0 h1 c1 h1 (by omega)
    refine ⟨by simp [p2, d3], p3.trans (d5 value), ?_⟩
    intro j hj
    rw [p4 j (by omega), d6 j hj]

theorem eq_dropLast_append {T : Type} (r : List T) (t : T) (h0 : 0 < r.length)
    (hr : r[r.length - 1]? = some t) : r = r.dropLast ++ [t] := by
  have hne : r ≠ [] := List.length_pos.mp h0
  have h1 := List.dropLast_concat_getLast hne
  have h2 : r.getLast? = some t := by rw [List.getLast?_eq_getElem?]; exact hr
  rw [List.getLast?_eq_getLast r hne] at h2
  cases h2
  exact h1.symm

theorem pq_pop_basic {T : Type} (pq : priority_queue T) (t : T) (ht : pq.top = some t) :
    (t :: pq.pop.c).Perm pq.c ∧ pq.pop.size + 1 = pq.size := by
  obtain ⟨cs, comp⟩ := pq
  simp only [priority_queue.top, priority_queue.pop, priority_queue.size] at ht ⊢
  by_cases hlen : cs.length > 1
  · have hlast : cs.length - 1 < cs.length := by omega
    have e1 : cs.getLast? = some (cs[cs.length - 1]) := by
      rw [List.getLast?_eq_getElem?]; exact List.getElem?_eq_getElem hlast
    have e0 : cs[0]? = some t := by rw [← List.head?_eq_getElem?]; exact ht
    simp only [pop_heap, hlen, if_true, e1, ht]
    obtain ⟨a1, a2, a3⟩ := adjust_heap_basic comp (cs.set (cs.length - 1) t) (cs.length - 1)
      cs[cs.length - 1] (by omega) (by simp)
    generalize adjust_heap comp (cs.set (cs.length - 1) t) 0 (cs.length - 1) cs[cs.length - 1] = r
      at a1 a2 a3
    simp only [List.length_set] at a1
    have hr : r[r.length - 1]? = some t := by
      rw [a1, a3 _ (Nat.le_refl _)]
      exact List.getElem?_set_self hlast
    have hsplit := eq_dropLast_append r t (by omega) hr
    refine ⟨?_, by simp; omega⟩
    have hsw := swap_perm cs (cs.length - 1) 0 cs[cs.length - 1] t (by omega)
      (List.getElem?_eq_getElem hlast) e0
    have : (t :: r.dropLast).Perm r := by
      conv_rhs => rw [hsplit]
      exact (List.perm_append_singleton t r.dropLast).symm
    exact this.trans (a2.trans hsw)
  · have : ∃ x, cs = [x] := by
      cases cs with
      | nil => simp at ht
      | cons x xs =>
        cases xs with
        | nil => exact ⟨x, rfl⟩
        | cons y ys => simp at hlen
    obtain ⟨x, rfl⟩ := this
    simp at ht
    subst ht
    simp [pop_heap]


theorem pq_pop_heap {T : Type} (pq : priority_queue T) (hc : StrictWeakOrder pq.comp)
    (hh : pq.is_heap) : pq.pop.is_heap := by
  obtain ⟨cs, comp⟩ := pq
  simp only [priority_queue.is_heap, priority_queue.pop] at hh hc ⊢
  by_cases hlen : cs.length > 1
  · have hlast : cs.length - 1 < cs.length := by omega
    have e1 : cs.getLast? = some (cs[cs.length - 1]) := by
      rw [List.getLast?_eq_getElem?]; exact List.getElem?_eq_getElem hlast
    have e0 : cs.head? = some (cs[0]) := by
      rw [List.head?_eq_getElem?]; exact List.getElem?_eq_getElem (by omega)
    simp only [pop_heap, hlen, if_true, e1, e0]
    have hhole : HeapHole comp (cs.set (cs.length - 1) cs[0]) (cs.length - 1) 0 := by
      constructor
      · intro i p x hi hin _ _ hp hx
        rw [List.getElem?_set_ne (by omega)] at hp hx
        exact hh i p x hi (by omega) hp hx
      · intro i g x h0
        omega
    obtain ⟨a1, a2, _, _⟩ := adjust_heap_spec hc (cs.set (cs.length - 1) cs[0])
      (cs.length - 1) cs[cs.length - 1] (by omega) (by simp) hhole
    generalize adjust_heap comp (cs.set (cs.length - 1) cs[0]) 0 (cs.length - 1)
      cs[cs.length - 1] = r at a1 a2
    simp only [List.length_set] at a2
    intro i p x hi hin hp hx
    simp only [List.length_dropLast] at hin
    rw [List.getElem?_dropLast] at hp hx
    rw [if_pos (by omega)] at hp hx
    exact a1 i p x hi (by omega) hp hx
  · intro i p x hi hin
    simp only [pop_heap, hlen, if_false, List.length_dropLast] at hin
    omega

theorem pq_push_heap {T : Type} (pq : priority_queue T) (x : T)
    (hc : StrictWeakOrder pq.comp) (hh : pq.is_heap) : (pq.push x).is_heap := by
  obtain ⟨cs, comp⟩ := pq
  simp only [priority_queue.is_heap, priority_queue.push] at hh hc ⊢
  have e1 : (cs ++ [x]).getLast? = some x := by simp
  simp only [push_heap, e1, List.length_append, List.length_singleton, Nat.add_sub_cancel]
  have hhole : HeapHole comp (cs ++ [x]) (cs.length + 1) cs.length := by
    constructor
    · intro i p y hi hin hil hpl hp hy
      rw [List.getElem?_append_left (by omega)] at hp hy
      exact hh i p y hi (by omega) hp hy
    · intro i g y h0 hi hin hip
      omega
  obtain ⟨a1, a2, _, _⟩ := push_heap_hole_spec hc x (cs.length + 1) cs.length (cs ++ [x])
    cs.length (Nat.le_refl _) (by omega) (by simp) hhole (by
      intro i y hi hin hip
      omega)
  rw [a2]
  simpa using a1

theorem pq_push_basic {T : Type} (pq : priority_queue T) (x : T) :
    (pq.push x).c.Perm (pq.c ++ [x]) ∧ (pq.push x).size = pq.size + 1 := by
  obtain ⟨cs, comp⟩ := pq
  simp only [priority_queue.push, priority_queue.size]
  have e1 : (cs ++ [x]).getLast? = some x := by simp
  simp only [push_heap, e1, List.length_append, List.length_singleton, Nat.add_sub_cancel]
  obtain ⟨a1, a2, _⟩ := push_heap_hole_basic comp x 0 cs.length (cs ++ [x]) cs.length
    (by simp)
  refine ⟨?_, by simp [a1]⟩
  refine a2.trans ?_
  rw [List.set_append_right _ _ (Nat.le_refl _)]
  simp

theorem removal_order_pq_mem {T : Type} (n : Nat) (pq : priority_queue T) (b : T)
    (hb : b ∈ removal_order priority_queue.top priority_queue.pop n pq) : b ∈ pq.c := by
  induction n generalizing pq with
  | zero => simp [removal_order] at hb
  | succ n ih =>
    simp only [removal_order] at hb
    split at hb
    · next x hx =>
      have hp := (pq_pop_basic pq x hx).1
      rcases List.mem_cons.mp hb with rfl | hb
      · exact hp.subset (List.mem_cons_self _ _)
      · exact hp.subset (List.mem_cons_of_mem _ (ih _ hb))
    · simp at hb

theorem removal_order_pq_perm {T : Type} (n : Nat) (pq : priority_queue T)
    (hn : pq.size = n) :
    (removal_order priority_queue.top priority_queue.pop n pq).Perm pq.c := by
  induction n generalizing pq with
  | zero =>
    have : pq.c = [] := by simpa [priority_queue.size] using hn
    simp [removal_order, this]
  | succ n ih =>
    obtain ⟨x, hx⟩ : ∃ x, pq.top = some x := by
      cases h : pq.c with
      | nil => simp [priority_queue.size, h] at hn
      | cons y ys => exact ⟨y, by simp [priority_queue.top, h]⟩
    obtain ⟨hp, hs⟩ := pq_pop_basic pq x hx
    simp only [removal_order, hx]
    exact (List.Perm.cons _ (ih pq.pop (by omega))).trans hp

theorem removal_order_pq_sorted {T : Type} (n : Nat) (pq : priority_queue T)
    (hc : StrictWeakOrder pq.comp) (hh : pq.is_heap) :
    (removal_order priority_queue.top priority_queue.pop n pq).Pairwise
      (fun a b => pq.comp a b = false) := by
  induction n generalizing pq with
  | zero => simp [removal_order]
  | succ n ih =>
    simp only [removal_order]
    split
    · next x hx =>
      refine List.Pairwise.cons ?_ (ih pq.pop hc (pq_pop_heap pq hc hh))
      intro b hb
      have hb1 : b ∈ pq.c :=
        (pq_pop_basic pq x hx).1.subset
          (List.mem_cons_of_mem _ (removal_order_pq_mem n pq.pop b hb))
      obtain ⟨i, hi, hib⟩ := List.getElem_of_mem hb1
      have hx0 : pq.c[0]? = some x := by
        rw [← List.head?_eq_getElem?]; exact hx
      exact heap_top_greatest hc pq.c pq.c.length hh (Nat.le_refl _) x hx0 i b hi
        (by rw [List.getElem?_eq_getElem hi, hib])
    · simp

theorem priority_queue_drain {T : Type} [Printable T] (fuel : Nat) (os : ostream)
    (pq : priority_queue T) (hf : pq.size ≤ fuel) :
    ∃ r, operator_lshift_priority_queue fuel os pq = some r ∧ r.param.empty = true
      ∧ r.iterations = pq.size
      ∧ r.os.buf = os.buf ++ "\x7b" ++ ", ".intercalate
          ((removal_order priority_queue.top priority_queue.pop pq.size pq).map render)
          ++ "\x7d" := by
  obtain ⟨a', ha', hl⟩ := drain_loop priority_queue.empty priority_queue.top
    priority_queue.pop priority_queue.size
    (by intro a; cases h : a.c <;> simp [priority_queue.empty, priority_queue.size, h])
    (by intro a h
        have hne : a.c ≠ [] := by
          intro h'; simp [priority_queue.empty, h'] at h
        obtain ⟨x, hx⟩ : ∃ x, a.top = some x := by
          cases h' : a.c with
          | nil => exact absurd h' hne
          | cons y ys => exact ⟨y, by simp [priority_queue.top, h']⟩
        exact ⟨x, hx, (pq_pop_basic a x hx).2⟩)
    fuel { os := os.puts "\x7b", first := true, a := pq } hf
  refine ⟨_, by unfold operator_lshift_priority_queue; simp only [hl]; rfl, ha', rfl, ?_⟩
  simp [ostream.puts, sep_join_true, String.append_assoc]

/-- C4: every adapter printer returns, after exactly `size` iterations of its loop, the
opening delimiter, the element texts in removal order joined by `, `, and the closing
delimiter: brackets for a stack (top to bottom) and a queue (front to back), braces for a
priority queue. The removal order of a priority queue, the order in which the heap of the
standard library hands its elements out, is a rearrangement of its elements, and for a
strict weak ordering and a container that is a heap (as after any pushes and pops) no element
in it is ordered before a later one. The stack built by pushing 1, 2, 3 is written
`[3, 2, 1]`, the priority queue built by pushing 1, 2, 3 as 3, 2, 1 between braces. -/
theorem C4_adapter_rendering {T : Type} [Printable T] (fuel : Nat) (os : ostream)
    (st : stack T) (q : queue T) (pq : priority_queue T)
    (hst : st.size ≤ fuel) (hq : q.size ≤ fuel) (hpq : pq.size ≤ fuel) :
    (∃ r, operator_lshift_stack fuel os st = some r ∧ r.iterations = st.size
      ∧ r.os.buf = os.buf ++ "[" ++ ", ".intercalate
          ((removal_order stack.top stack.pop st.size st).map render) ++ "]"
      ∧ removal_order stack.top stack.pop st.size st = st.c)
    ∧ (∃ r, operator_lshift_queue fuel os q = some r ∧ r.iterations = q.size
      ∧ r.os.buf = os.buf ++ "[" ++ ", ".intercalate
          ((removal_order queue.front queue.pop q.size q).map render) ++ "]"
      ∧ removal_order queue.front queue.pop q.size q = q.c)
    ∧ (∃ r, operator_lshift_priority_queue fuel os pq = some r ∧ r.iterations = pq.size
      ∧ r.os.buf = os.buf ++ "\x7b" ++ ", ".intercalate
          ((removal_order priority_queue.top priority_queue.pop pq.size pq).map render)
          ++ "\x7d"
      ∧ (removal_order priority_queue.top priority_queue.pop pq.size pq).Perm pq.c
      ∧ (StrictWeakOrder pq.comp → pq.is_heap →
          (removal_order priority_queue.top priority_queue.pop pq.size pq).Pairwise
            (fun a b => pq.comp a b = false)))
    ∧ (operator_lshift_stack 3 ⟨""⟩
          ((((stack.mk []).push (1 : Int)).push 2).push 3)).map (fun r => r.os.buf)
        = some "[3, 2, 1]"
    ∧ (priority_queue.mk ([] : List T) pq.comp).is_heap
    ∧ (StrictWeakOrder pq.comp → pq.is_heap → (∀ x, (pq.push x).is_heap) ∧ pq.pop.is_heap)
    ∧ (operator_lshift_priority_queue 3 ⟨""⟩
          ((((priority_queue.mk [] (fun a b => decide (a < b))).push (1 : Int)).push 2).push
            3)).map (fun r => r.os.buf)
        = some "\x7b3, 2, 1\x7d"
    ∧ (operator_lshift_priority_queue 5 ⟨""⟩
          ((((((priority_queue.mk [] (fun a b => decide (a.first < b.first))).push
            (pair.mk (1 : Int) (1 : Int))).push (pair.mk 1 2)).push (pair.mk 1 3)).push
            (pair.mk 1 4)).push (pair.mk 1 5))).map (fun r => r.os.buf)
        = some "\x7b(1, 1), (1, 3), (1, 5), (1, 2), (1, 4)\x7d" := by
  refine ⟨?_, ?_, ?_, by decide, ?_, ?_, by decide, by decide⟩
  · obtain ⟨r, h1, _, h3, h4⟩ := stack_drain fuel os st hst
    exact ⟨r, h1, h3, h4, by simp [removal_order_stack, stack.size]⟩
  · obtain ⟨r, h1, _, h3, h4⟩ := queue_drain fuel os q hq
    exact ⟨r, h1, h3, h4, by simp [removal_order_queue, queue.size]⟩
  · obtain ⟨r, h1, _, h3, h4⟩ := priority_queue_drain fuel os pq hpq
    exact ⟨r, h1, h3, h4, removal_order_pq_perm _ pq rfl,
      fun hc hh => removal_order_pq_sorted _ pq hc hh⟩
  · intro i p x hi hin
    simp at hin
  · intro hc hh
    exact ⟨fun x => pq_push_heap pq x hc hh, pq_pop_heap pq hc hh⟩

/-- C4, at the stack, the queue and the priority queue built by pushing 1, 2, 3: the
comparison `<` is a strict weak ordering, the container of the priority queue is a heap,
and its removal order is descending. -/
theorem C4_adapter_rendering_witness :
    (∃ r, operator_lshift_priority_queue 3 ⟨""⟩
        ((((priority_queue.mk [] (fun a b => decide (a < b))).push (1 : Int)).push 2).push 3)
      = some r ∧ r.iterations = 3)
    ∧ StrictWeakOrder (fun (a b : Int) => decide (a < b))
    ∧ priority_queue.is_heap
        ((((priority_queue.mk [] (fun a b => decide (a < b))).push (1 : Int)).push 2).push 3)
    ∧ (removal_order priority_queue.top priority_queue.pop
        (priority_queue.size
          ((((priority_queue.mk [] (fun a b => decide (a < b))).push (1 : Int)).push 2).push 3))
        ((((priority_queue.mk [] (fun a b => decide (a < b))).push (1 : Int)).push 2).push 3)).Pairwise
        (fun a b => decide (a < b) = false) := by
  have hc : StrictWeakOrder (fun (a b : Int) => decide (a < b)) :=
    ⟨fun a b h => by simp at h ⊢; omega, fun a b c h => by simp at h ⊢; omega⟩
  have h0 : (priority_queue.mk ([] : List Int) (fun a b => decide (a < b))).is_heap := by
    intro i p x hi hin
    simp at hin
  have h3 : priority_queue.is_heap
      ((((priority_queue.mk [] (fun a b => decide (a < b))).push (1 : Int)).push 2).push 3) :=
    pq_push_heap _ 3 hc (pq_push_heap _ 2 hc (pq_push_heap _ 1 hc h0))
  obtain ⟨r, hr⟩ := (C4_adapter_rendering 3 ⟨""⟩
    ((((stack.mk []).push (1 : Int)).push 2).push 3)
    ((((queue.mk []).push (1 : Int)).push 2).push 3)
    ((((priority_queue.mk [] (fun a b => decide (a < b))).push (1 : Int)).push 2).push 3)
    (by decide) (by decide) (by decide)).2.2.1
  exact ⟨⟨r, hr.1, hr.2.1⟩, hc, h3, hr.2.2.2.2 hc h3⟩

/-- C3, as stated, fails: after the stack holding 1, 2, 3 is printed, the stack of the
caller still has its three elements; only the parameter of the printer is empty. -/
theorem C3_caller_stack_not_consumed :
    (Caller.print_stack 3 ⟨⟨""⟩, (((stack.mk []).push (1 : Int)).push 2).push 3⟩).map
        (fun r => (r.1.os.buf, r.1.a.size, r.1.a.empty, r.2.param.size))
      = some ("[3, 2, 1]", 3, false, 0) := by
  decide

/-- C3, amended: every adapter printer returns with its own by-value parameter empty, and the
adapter variable of the caller is what it was before the call. -/
theorem C3_adapter_copy_drained {T : Type} [Printable T] (fuel : Nat) (os : ostream)
    (st : stack T) (q : queue T) (pq : priority_queue T)
    (hst : st.size ≤ fuel) (hq : q.size ≤ fuel) (hpq : pq.size ≤ fuel) :
    (∃ r, Caller.print_stack fuel ⟨os, st⟩ = some r
      ∧ r.2.param.empty = true ∧ r.1.a = st)
    ∧ (∃ r, Caller.print_queue fuel ⟨os, q⟩ = some r
      ∧ r.2.param.empty = true ∧ r.1.a = q)
    ∧ (∃ r, Caller.print_priority_queue fuel ⟨os, pq⟩ = some r
      ∧ r.2.param.empty = true ∧ r.1.a = pq) := by
  refine ⟨?_, ?_, ?_⟩
  · obtain ⟨r, h1, h2, _⟩ := stack_drain fuel os st hst
    exact ⟨(⟨r.os, st⟩, r), by simp [Caller.print_stack, h1], h2, rfl⟩
  · obtain ⟨r, h1, h2, _⟩ := queue_drain fuel os q hq
    exact ⟨(⟨r.os, q⟩, r), by simp [Caller.print_queue, h1], h2, rfl⟩
  · obtain ⟨r, h1, h2, _⟩ := priority_queue_drain fuel os pq hpq
    exact ⟨(⟨r.os, pq⟩, r), by simp [Caller.print_priority_queue, h1], h2, rfl⟩

/-- C3, amended, at the stack built by pushing 1, 2, 3. -/
theorem C3_adapter_copy_drained_witness :
    ∃ r, Caller.print_stack 3 ⟨⟨""⟩, (((stack.mk []).push (1 : Int)).push 2).push 3⟩ = some r
      ∧ r.2.param.empty = true
      ∧ r.1.a = (((stack.mk []).push (1 : Int)).push 2).push 3 :=
  (C3_adapter_copy_drained 3 ⟨""⟩
    ((((stack.mk []).push (1 : Int)).push 2).push 3)
    ((((queue.mk []).push (1 : Int)).push 2).push 3)
    ((((priority_queue.mk [] (fun a b => decide (a < b))).push (1 : Int)).push 2).push 3)
    (by decide) (by decide) (by decide)).1

/-! ## The name/value printer -/

theorem strchr_none {c : Char} {l : List Char} (h : strchr l c = none) : c ∉ l := by
  induction l with
  | nil => simp
  | cons d ds ih =>
    simp only [strchr] at h
    split at h
    · simp at h
    · next hd =>
      simp only [Option.map_eq_none'] at h
      simp only [List.mem_cons, not_or]
      exact ⟨fun e => hd e.symm, ih h⟩

theorem strchr_some {c : Char} {l : List Char} {k : Nat} (h : strchr l c = some k) :
    c ∉ l.take k ∧ l = l.take k ++ c :: l.drop (k + 1) := by
  induction l generalizing k with
  | nil => simp [strchr] at h
  | cons d ds ih =>
    simp only [strchr] at h
    split at h
    · next hd =>
      have : k = 0 := by simpa using h.symm
      subst this
      simp [hd]
    · next hd =>
      simp only [Option.map_eq_some'] at h
      obtain ⟨j, hj, rfl⟩ := h
      obtain ⟨h1, h2⟩ := ih hj
      refine ⟨?_, ?_⟩
      · simp only [List.take_succ_cons, List.mem_cons, not_or]
        exact ⟨fun e => hd e.symm, h1⟩
      · simp only [List.take_succ_cons, List.drop_succ_cons, List.cons_append]
        rw [← h2]

theorem segments_no_comma {names : String} (h : strchr names.data ',' = none) :
    segments names = [names] := by
  simp [segments, split_at_no _ _ (strchr_none h)]

theorem segments_comma {names : String} {k : Nat} (h : strchr names.data ',' = some k) :
    segments names
      = String.mk (names.data.take k) :: segments (String.mk (names.data.drop (k + 1))) := by
  obtain ⟨h1, h2⟩ := strchr_some h
  have := split_at_append_no ',' _ (names.data.drop (k + 1)) h1
  rw [← h2] at this
  simp [segments, this]

theorem segments_ne_nil (names : String) : segments names ≠ [] := by
  simp [segments, split_at_ne_nil]

theorem db_out_text (args : List Arg) (names : String) (clog : ostream)
    (hne : args ≠ []) (hlen : (segments names).length = args.length) :
    (db_out clog names args).buf = clog.buf ++ db_text (segments names) args := by
  induction args generalizing names clog with
  | nil => exact absurd rfl hne
  | cons x rest ih =>
    cases hc : strchr names.data ',' with
    | none =>
      rw [segments_no_comma hc] at hlen ⊢
      have hr : rest = [] := by
        cases rest with
        | nil => rfl
        | cons y ys => simp at hlen
      subst hr
      simp [db_out, hc, db_text, separator_after, ostream.endl, ostream.puts,
        String.append_assoc]
    | some k =>
      rw [segments_comma hc] at hlen ⊢
      have hlen' : (segments (String.mk (names.data.drop (k + 1)))).length = rest.length := by
        simpa using hlen
      have hr : rest ≠ [] := by
        intro h
        rw [h] at hlen'
        exact segments_ne_nil _ (List.length_eq_zero.mp hlen')
      have hre : rest.isEmpty = false := by
        cases rest with
        | nil => exact absurd rfl hr
        | cons y ys => rfl
      simp only [db_out, hc, db_text, separator_after, hre]
      cases hx : x.is_container <;>
        simp [ih _ _ hr hlen', ostream.puts, String.append_assoc]

theorem intercalate_go_append (sep p acc : String) (l : List String) :
    String.intercalate.go (p ++ acc) sep l = p ++ String.intercalate.go acc sep l := by
  induction l generalizing acc with
  | nil => simp [String.intercalate.go]
  | cons x xs ih =>
    simp only [String.intercalate.go]
    rw [String.append_assoc, String.append_assoc, ih, ← String.append_assoc]

theorem intercalate_cons_cons (sep a b : String) (l : List String) :
    sep.intercalate (a :: b :: l) = a ++ sep ++ sep.intercalate (b :: l) := by
  simp only [String.intercalate, String.intercalate.go]
  rw [intercalate_go_append]

theorem db_text_flat (args : List Arg) (segs : List String)
    (hne : args ≠ []) (hlen : segs.length = args.length)
    (hflat : ∀ a ∈ args.dropLast, a.is_container = false) :
    db_text segs args
      = " | ".intercalate (List.zipWith (fun n a => n ++ " = " ++ a.render) segs args)
        ++ "\n" := by
  induction args generalizing segs with
  | nil => exact absurd rfl hne
  | cons a rest ih =>
    cases segs with
    | nil => simp at hlen
    | cons n ns =>
      cases rest with
      | nil =>
        have : ns = [] := by simpa using hlen
        subst this
        simp [db_text, separator_after, String.intercalate, String.intercalate.go]
      | cons b bs =>
        cases ns with
        | nil => simp at hlen
        | cons m ms =>
          have ha : a.is_container = false := hflat a (by simp [List.dropLast])
          have hrest := ih (m :: ms) (by simp) (by simpa using hlen)
            (fun x hx => hflat x (by simp [List.dropLast] at hx ⊢; exact Or.inr hx))
          rw [db_text, hrest]
          simp only [List.zipWith_cons_cons, intercalate_cons_cons " | "]
          simp [separator_after, ha, String.append_assoc]

/-- C2, as stated, fails: the vector holding 1 and 2 is written on one line, `[1, 2]`, and
yet `db_out` writes a line break after it, not ` | `; and a pair whose text has line breaks
is followed by ` | `. -/
theorem C2_separator_not_by_layout :
    hasLineBreak (render (vector.mk [(1 : Int), 2])) = false
    ∧ (db_out ⟨""⟩ "v, y" [arg (vector.mk [(1 : Int), 2]), arg (3 : Int)]).buf
        = "v = [1, 2]\n y = 3\n"
    ∧ hasLineBreak (render (pair.mk (1 : Int) (vector.mk [vector.mk [(2 : Int)]]))) = true
    ∧ (db_out ⟨""⟩ "p, y"
          [arg (pair.mk (1 : Int) (vector.mk [vector.mk [(2 : Int)]])), arg (3 : Int)]).buf
        = "p = (1, [\n  [2]\n]) |  y = 3\n" := by
  decide

/-- C2, amended: `db_out`, called with as many values as `names` has segments, writes every
item `name = value` followed by a separator: after a non-final value a line break when the
type of the value is container-like and ` | ` otherwise, after the final value a line
break. -/
theorem C2_separator_by_type (clog : ostream) (names : String) (args : List Arg)
    (hne : args ≠ []) (hlen : (segments names).length = args.length) :
    (db_out clog names args).buf = clog.buf ++ db_text (segments names) args :=
  db_out_text args names clog hne hlen

/-- C2, amended, at a vector and a number. -/
theorem C2_separator_by_type_witness :
    (db_out ⟨""⟩ "v, y" [arg (vector.mk [(1 : Int), 2]), arg (3 : Int)]).buf
      = "" ++ db_text (segments "v, y") [arg (vector.mk [(1 : Int), 2]), arg (3 : Int)] :=
  C2_separator_by_type ⟨""⟩ "v, y" [arg (vector.mk [(1 : Int), 2]), arg (3 : Int)]
    (by simp) (by decide)

/-- C1, as stated, fails: for the names `x, y` and the values 3 and `hi` the output is
`x = 3 |  y = hi`, the second label keeping the blank after the comma, so the text
`x = 3 | y = hi` does not occur in it; and for the names `v, y` the vector `[1, 2]`, a
single-line text, is followed by a line break instead of ` | `. -/
theorem C1_output_not_as_stated :
    (db_out ⟨""⟩ "x, y" [arg (3 : Int), arg (c_str.mk "hi")]).buf = "x = 3 |  y = hi\n"
    ∧ ¬ ("x = 3 | y = hi".data
          <:+: (db_out ⟨""⟩ "x, y" [arg (3 : Int), arg (c_str.mk "hi")]).buf.data)
    ∧ hasLineBreak (render (vector.mk [(1 : Int), 2])) = false
    ∧ ¬ ("v = [1, 2] | ".data
          <:+: (db_out ⟨""⟩ "v, y" [arg (vector.mk [(1 : Int), 2]), arg (3 : Int)]).buf.data)
    := by
  decide

/-- C1, amended: for names with as many segments between commas as there are values, where
the types of the non-final values are not container-like, `db_out` writes the items
`segment = value` in order, every segment as it stands between the commas, joined by ` | `,
with no separator after the last item and one line break at the end. -/
theorem C1_db_out_items (clog : ostream) (names : String) (args : List Arg)
    (hne : args ≠ []) (hlen : (segments names).length = args.length)
    (hflat : ∀ a ∈ args.dropLast, a.is_container = false) :
    (db_out clog names args).buf
      = clog.buf ++ " | ".intercalate
          (List.zipWith (fun n a => n ++ " = " ++ a.render) (segments names) args)
        ++ "\n" := by
  rw [db_out_text args names clog hne hlen, db_text_flat args _ hne hlen hflat,
    String.append_assoc]

/-- C1, amended, at the names `x, y` and the values 3 and `hi`. -/
theorem C1_db_out_items_witness :
    (db_out ⟨""⟩ "x, y" [arg (3 : Int), arg (c_str.mk "hi")]).buf
      = "" ++ " | ".intercalate ["x = 3", " y = hi"] ++ "\n" :=
  C1_db_out_items ⟨""⟩ "x, y" [arg (3 : Int), arg (c_str.mk "hi")]
    (by simp) (by decide) (by decide)

/-! ## Multi-line maps, deques and lists -/

/-- C11: the unordered map with the six entries 1: 1 to 6: 36 is written in the multi-line
layout with a comma at the end of every entry line, the last one included, while the map with
the same entries has no comma on its last entry line. -/
theorem C11_unordered_map_last_line_has_comma :
    lines (render (unordered_map.mk
        [((1 : Int), (1 : Int)), (2, 4), (3, 9), (4, 16), (5, 25), (6, 36)]))
      = ["\x7b", "  1: 1,", "  2: 4,", "  3: 9,", "  4: 16,", "  5: 25,", "  6: 36,", "\x7d"]
    ∧ lines (render (map.mk
        [((1 : Int), (1 : Int)), (2, 4), (3, 9), (4, 16), (5, 25), (6, 36)]))
      = ["\x7b", "  1: 1,", "  2: 4,", "  3: 9,", "  4: 16,", "  5: 25,", "  6: 36", "\x7d"] := by
  decide

/-- C12: a non-empty map that takes the multi-line branch (more than 5 entries or a
container-like value type) is written as a brace and a line break, then every entry in
iteration order as two spaces, the key, `: `, the value, a comma (not after the last entry)
and a line break, then the closing brace; the value `m.size() - 1` the loop compares with is
computed without wrapping around. -/
theorem C12_map_multiline {K V : Type} [Printable K] [Printable V] (m : map K V)
    (hc : (decide (m.size > 5) || is_container V) = true) (he : m.empty = false)
    (hsz : m.size < 2 ^ 64) :
    render m = "\x7b" ++ "\n" ++ block (content_lines (m.entries.map entry_text)) ++ "\x7d"
    ∧ size_t_sub m.size 1 = m.size - 1 ∧ size_t_sub m.size 1 < m.size := by
  have hm : render m = (operator_lshift_map ⟨""⟩ m).buf := rfl
  have hpos : 0 < m.size := by
    unfold map.size; unfold map.empty at he
    cases h : m.entries <;> simp_all
  refine ⟨?_, size_t_sub_one hpos hsz, ?_⟩
  · rw [hm, map_block _ _ hc he hsz]; simp
  · rw [size_t_sub_one hpos hsz]; omega

/-- C12, at the map with the single entry 1: [2, 3], whose value type is a vector. -/
theorem C12_map_multiline_witness :
    render (map.mk [((1 : Int), vector.mk [(2 : Int), 3])])
      = "\x7b" ++ "\n" ++ block ["  1: [2, 3]"] ++ "\x7d" :=
  (C12_map_multiline (map.mk [((1 : Int), vector.mk [(2 : Int), 3])])
    (by decide) (by decide) (by decide)).1

/-- C13: the deque and the list holding the pairs (1, 2) and (3, 4) are written on one line,
without any line break, while the vector holding the same pairs is written in the multi-line
layout. -/
theorem C13_deque_list_single_line :
    render (deque.mk [pair.mk (1 : Int) (2 : Int), pair.mk 3 4]) = "[(1, 2), (3, 4)]"
    ∧ render (list.mk [pair.mk (1 : Int) (2 : Int), pair.mk 3 4]) = "[(1, 2), (3, 4)]"
    ∧ render (deque.mk [vector.mk [(1 : Int), 2], vector.mk [3]]) = "[[1, 2], [3]]"
    ∧ (is_container (pair Int Int) || is_pair (pair Int Int)) = true
    ∧ lines (render (vector.mk [pair.mk (1 : Int) (2 : Int), pair.mk 3 4]))
      = ["[", "  (1, 2),", "  (3, 4)", "]"] := by
  decide

/-! ## Always single-line containers, tuples, empty containers -/

theorem braces_flat {T : Type} [Printable T] (os : ostream) (es : List T) :
    ((es.foldl first_step (os.puts "\x7b", true)).1.puts "\x7d").buf
      = os.buf ++ "\x7b" ++ ", ".intercalate (es.map render) ++ "\x7d" := by
  simp [foldl_first_step, ostream.puts, sep_join_true]

theorem braces_flat_kv {K V : Type} [Printable K] [Printable V] (os : ostream)
    (es : List (K × V)) :
    ((es.foldl first_step_kv (os.puts "\x7b", true)).1.puts "\x7d").buf
      = os.buf ++ "\x7b" ++ ", ".intercalate (es.map entry_text) ++ "\x7d" := by
  simp [foldl_first_step_kv, ostream.puts, sep_join_true]

/-- C18: a multiset, unordered set, unordered multiset, multimap or unordered multimap of any
size is written as a brace, its items in iteration order joined by `, `, and a brace, where
an item is the element text or `k: v`; the text has a line break only where an item has
one. -/
theorem C18_always_single_line {T K V : Type} [Printable T] [Printable K] [Printable V]
    (es : List T) (kvs : List (K × V)) :
    render (multiset.mk es) = "\x7b" ++ ", ".intercalate (es.map render) ++ "\x7d"
    ∧ render (unordered_set.mk es) = "\x7b" ++ ", ".intercalate (es.map render) ++ "\x7d"
    ∧ render (unordered_multiset.mk es)
        = "\x7b" ++ ", ".intercalate (es.map render) ++ "\x7d"
    ∧ render (multimap.mk kvs) = "\x7b" ++ ", ".intercalate (kvs.map entry_text) ++ "\x7d"
    ∧ render (unordered_multimap.mk kvs)
        = "\x7b" ++ ", ".intercalate (kvs.map entry_text) ++ "\x7d"
    ∧ hasLineBreak ("\x7b" ++ ", ".intercalate (es.map render) ++ "\x7d")
        = (es.map render).any hasLineBreak
    ∧ hasLineBreak ("\x7b" ++ ", ".intercalate (kvs.map entry_text) ++ "\x7d")
        = (kvs.map entry_text).any hasLineBreak := by
  have h1 : render (multiset.mk es) = (operator_lshift_multiset ⟨""⟩ (multiset.mk es)).buf :=
    rfl
  have h2 : render (unordered_set.mk es)
      = (operator_lshift_unordered_set ⟨""⟩ (unordered_set.mk es)).buf := rfl
  have h3 : render (unordered_multiset.mk es)
      = (operator_lshift_unordered_multiset ⟨""⟩ (unordered_multiset.mk es)).buf := rfl
  have h4 : render (multimap.mk kvs)
      = (operator_lshift_multimap ⟨""⟩ (multimap.mk kvs)).buf := rfl
  have h5 : render (unordered_multimap.mk kvs)
      = (operator_lshift_unordered_multimap ⟨""⟩ (unordered_multimap.mk kvs)).buf := rfl
  refine ⟨?_, ?_, ?_, ?_, ?_, ?_, ?_⟩
  · rw [h1]; unfold operator_lshift_multiset; rw [braces_flat]; simp
  · rw [h2]; unfold operator_lshift_unordered_set; rw [braces_flat]; simp
  · rw [h3]; unfold operator_lshift_unordered_multiset; rw [braces_flat]; simp
  · rw [h4]; unfold operator_lshift_multimap; rw [braces_flat_kv]; simp
  · rw [h5]; unfold operator_lshift_unordered_multimap; rw [braces_flat_kv]; simp
  · exact hasLineBreak_bracketed _ _ _ (by decide) (by decide)
  · exact hasLineBreak_bracketed _ _ _ (by decide) (by decide)

theorem foldl_tuple_step (l : List Arg) (os : ostream) (first : Bool) :
    (l.foldl (fun (st : ostream × String) (a : Arg) => ((st.1.puts st.2).puts a.render, ", "))
        (os, if first then "" else ", ")).1
      = ⟨os.buf ++ sep_join first (l.map Arg.render)⟩ := by
  induction l generalizing os first with
  | nil => simp [sep_join]
  | cons a l ih =>
    have h := ih ((os.puts (if first then "" else ", ")).puts a.render) false
    simp only [Bool.false_eq_true, if_false] at h
    simp only [List.foldl, h, List.map, sep_join]
    simp [ostream.puts, String.append_assoc]

/-- C19: a tuple is written as `(`, the texts of its elements in index order joined by `, `,
and `)`; the tuple without elements is `()`, a tuple with one element is `(`, the element
text and `)`. -/
theorem C19_tuple_render (os : ostream) (t : tuple) (a : Arg) :
    (operator_lshift_tuple os t).buf
      = os.buf ++ "(" ++ ", ".intercalate (t.elems.map Arg.render) ++ ")"
    ∧ (operator_lshift_tuple os ⟨[]⟩).buf = os.buf ++ "()"
    ∧ (operator_lshift_tuple os ⟨[a]⟩).buf = os.buf ++ "(" ++ a.render ++ ")"
    ∧ (operator_lshift_tuple ⟨""⟩
        ⟨[arg (1 : Int), arg (c_str.mk "a"), arg (pair.mk (2 : Int) (3 : Int))]⟩).buf
      = "(1, a, (2, 3))" := by
  have key : ∀ t : tuple, (operator_lshift_tuple os t).buf
      = os.buf ++ "(" ++ ", ".intercalate (t.elems.map Arg.render) ++ ")" := by
    intro t
    unfold operator_lshift_tuple
    have h := foldl_tuple_step t.elems (os.puts "(") true
    simp only [if_true] at h
    simp only [h]
    simp only [sep_join_true, ostream.puts]
  refine ⟨key t, ?_, ?_, by decide⟩
  · rw [key]; simp [String.intercalate, String.append_assoc]
  · rw [key]; simp [String.intercalate, String.intercalate.go]

/-- C14: every container printer writes an empty value as its two delimiters with nothing
between them, `[]` for vector, deque, list, stack and queue, and a pair of braces for the
sets, the maps and the priority queue, whatever the element or value type is. -/
theorem C14_empty_containers {T K V : Type} [Printable T] [Printable K] [Printable V]
    (fuel : Nat) (os : ostream) (comp : T → T → Bool) :
    render (vector.mk ([] : List T)) = "[]"
    ∧ render (deque.mk ([] : List T)) = "[]"
    ∧ render (list.mk ([] : List T)) = "[]"
    ∧ (operator_lshift_stack fuel os (stack.mk ([] : List T))).map (fun r => r.os.buf)
        = some (os.buf ++ "[]")
    ∧ (operator_lshift_queue fuel os (queue.mk ([] : List T))).map (fun r => r.os.buf)
        = some (os.buf ++ "[]")
    ∧ render (set.mk ([] : List T)) = "\x7b\x7d"
    ∧ render (multiset.mk ([] : List T)) = "\x7b\x7d"
    ∧ render (unordered_set.mk ([] : List T)) = "\x7b\x7d"
    ∧ render (unordered_multiset.mk ([] : List T)) = "\x7b\x7d"
    ∧ render (map.mk ([] : List (K × V))) = "\x7b\x7d"
    ∧ render (multimap.mk ([] : List (K × V))) = "\x7b\x7d"
    ∧ render (unordered_map.mk ([] : List (K × V))) = "\x7b\x7d"
    ∧ render (unordered_multimap.mk ([] : List (K × V))) = "\x7b\x7d"
    ∧ (operator_lshift_priority_queue fuel os
          (priority_queue.mk ([] : List T) comp)).map (fun r => r.os.buf)
        = some (os.buf ++ "\x7b\x7d")
    ∧ hasLineBreak "[]" = false ∧ hasLineBreak "\x7b\x7d" = false
    ∧ render (vector.mk ([] : List (pair Int (vector Int)))) = "[]"
    ∧ render (map.mk ([] : List (Int × vector Int))) = "\x7b\x7d" := by
  have hv : render (vector.mk ([] : List T))
      = (operator_lshift_vector ⟨""⟩ (vector.mk ([] : List T))).buf := rfl
  have hd : render (deque.mk ([] : List T))
      = (operator_lshift_deque ⟨""⟩ (deque.mk ([] : List T))).buf := rfl
  have hl : render (list.mk ([] : List T))
      = (operator_lshift_list ⟨""⟩ (list.mk ([] : List T))).buf := rfl
  have hs : render (set.mk ([] : List T))
      = (operator_lshift_set ⟨""⟩ (set.mk ([] : List T))).buf := rfl
  have hm : render (map.mk ([] : List (K × V)))
      = (operator_lshift_map ⟨""⟩ (map.mk ([] : List (K × V)))).buf := rfl
  have hu : render (unordered_map.mk ([] : List (K × V)))
      = (operator_lshift_unordered_map ⟨""⟩ (unordered_map.mk ([] : List (K × V)))).buf := rfl
  refine ⟨?_, ?_, ?_, ?_, ?_, ?_, ?_, ?_, ?_, ?_, ?_, ?_, ?_, ?_, by decide, by decide,
    by decide, by decide⟩
  · rw [hv]; unfold operator_lshift_vector
    cases (is_container T || is_pair T) <;>
      simp [vector.empty, List.enum, ostream.puts, String.append_assoc]
  · rw [hd, deque_flat]; simp [String.intercalate]
  · rw [hl, list_flat]; simp [String.intercalate]
  · cases fuel <;>
      simp [operator_lshift_stack, while_loop, stack.empty, ostream.puts, String.append_assoc]
  · cases fuel <;>
      simp [operator_lshift_queue, while_loop, queue.empty, ostream.puts, String.append_assoc]
  · rw [hs, set_small _ _ (by simp [set.size])]; simp [String.intercalate]
  · show (operator_lshift_multiset ⟨""⟩ (multiset.mk ([] : List T))).buf = _
    unfold operator_lshift_multiset; rw [braces_flat]; simp [String.intercalate]
  · show (operator_lshift_unordered_set ⟨""⟩ (unordered_set.mk ([] : List T))).buf = _
    unfold operator_lshift_unordered_set; rw [braces_flat]; simp [String.intercalate]
  · show (operator_lshift_unordered_multiset ⟨""⟩
      (unordered_multiset.mk ([] : List T))).buf = _
    unfold operator_lshift_unordered_multiset; rw [braces_flat]; simp [String.intercalate]
  · rw [hm]; unfold operator_lshift_map
    cases (is_container V) <;>
      simp [map.size, map.empty, ostream.puts, String.append_assoc]
  · show (operator_lshift_multimap ⟨""⟩ (multimap.mk ([] : List (K × V)))).buf = _
    unfold operator_lshift_multimap; rw [braces_flat_kv]; simp [String.intercalate]
  · rw [hu]; unfold operator_lshift_unordered_map
    cases (is_container V) <;>
      simp [unordered_map.size, unordered_map.empty, ostream.puts, String.append_assoc]
  · show (operator_lshift_unordered_multimap ⟨""⟩
      (unordered_multimap.mk ([] : List (K × V)))).buf = _
    unfold operator_lshift_unordered_multimap; rw [braces_flat_kv]; simp [String.intercalate]
  · cases fuel <;>
      simp [operator_lshift_priority_queue, while_loop, priority_queue.empty, ostream.puts,
        String.append_assoc]

/-! ## Classification of types -/

/-- C15, as stated, fails: `is_container` holds for `std::string`, a scalar, and for
`std::array`, a fixed-size aggregate; the printers see a string as container-like. -/
theorem C15_string_and_array_are_containers :
    Ty.std_string.is_container = true ∧ Ty.std_string.category = Category.Scalar
    ∧ (Ty.array Ty.int 3).is_container = true
    ∧ (Ty.array Ty.int 3).category = Category.FixedAggregate
    ∧ is_container std_string = true
    ∧ render (vector.mk [std_string.mk "a", std_string.mk "b"]) = "[\n  a,\n  b\n]" := by
  decide

/-- C15, amended: every type has one category; `is_pair` holds exactly for the category Pair
and `is_tuple` exactly for Tuple; `is_container` holds exactly for the category Container,
for `std::string` and for `std::array`, hence not for the other scalars, pairs, tuples,
C arrays and adapters; no type satisfies two of the three predicates. -/
theorem C15_classification (t : Ty) :
    (t.is_pair = true ↔ t.category = Category.Pair)
    ∧ (t.is_tuple = true ↔ t.category = Category.Tuple)
    ∧ (t.is_container = true ↔
        (t.category = Category.Container ∨ t = Ty.std_string ∨ ∃ e n, t = Ty.array e n))
    ∧ ¬ (t.is_container = true ∧ t.is_pair = true)
    ∧ ¬ (t.is_container = true ∧ t.is_tuple = true)
    ∧ ¬ (t.is_pair = true ∧ t.is_tuple = true) := by
  cases t <;>
    simp [Ty.is_pair, Ty.is_tuple, Ty.is_container, Ty.has_begin_end, Ty.category]

/-! ## The macro `db` and the documented flag -/

/-- C16: a program with the documented include block, compiled with `-Dlocal` alone, writes
nothing for `db(x)`; the line tag and `x = 3` appear only when `LOCAL` is defined as well;
without any flag nothing is written. -/
theorem C16_db_silent_with_documented_flag :
    (program_db ⟨["local"]⟩ 7 ⟨""⟩ "x" [arg (3 : Int)]).buf = ""
    ∧ (program_db ⟨["local", "LOCAL"]⟩ 7 ⟨""⟩ "x" [arg (3 : Int)]).buf = "[7] x = 3\n"
    ∧ (program_db ⟨[]⟩ 7 ⟨""⟩ "x" [arg (3 : Int)]).buf = "" := by
  decide

/-! ## Names and values of different counts -/

theorem db_out_text_any (args : List Arg) (names : String) (clog : ostream) :
    (db_out clog names args).buf = clog.buf ++ db_text_any (segments names) args := by
  induction args generalizing names clog with
  | nil =>
    cases h : segments names with
    | nil => exact absurd h (segments_ne_nil names)
    | cons n ns => simp [db_out, db_text_any, ostream.endl, ostream.puts]
  | cons x rest ih =>
    cases hc : strchr names.data ',' with
    | none =>
      rw [segments_no_comma hc]
      simp [db_out, hc, db_text_any, ostream.endl, ostream.puts, String.append_assoc]
    | some k =>
      rw [segments_comma hc]
      cases hs : segments (String.mk (names.data.drop (k + 1))) with
      | nil => exact absurd hs (segments_ne_nil _)
      | cons m ns =>
        simp only [db_out, hc, db_text_any]
        cases hx : x.is_container <;>
          simp [ih, hs, ostream.puts, String.append_assoc]

theorem db_text_any_items (segs : List String) (args : List Arg) (k L : Nat)
    (hL : L = k + segs.length) (hne : segs ≠ []) :
    db_text_any segs args
      = concat_all (((List.zip segs args).enumFrom k).map (fun (ix : Nat × String × Arg) =>
          ix.2.1 ++ " = " ++ ix.2.2.render
            ++ (if ix.1 + 1 = L then "\n"
                else if ix.2.2.is_container then "\n" else " | ")))
        ++ (if args.length < segs.length then "\n" else "") := by
  induction segs generalizing args k with
  | nil => exact absurd rfl hne
  | cons n ns ih =>
    cases ns with
    | nil =>
      cases args with
      | nil => simp [db_text_any, concat_all]
      | cons a as =>
        have : k + 1 = L := by simp at hL; omega
        simp [db_text_any, concat_all, List.enumFrom, this, String.append_assoc]
    | cons m ms =>
      cases args with
      | nil => simp [db_text_any, concat_all]
      | cons a as =>
        have hk : ¬ (k + 1 = L) := by simp at hL; omega
        have h := ih as (k + 1) (by simp at hL ⊢; omega) (by simp)
        rw [db_text_any, h]
        simp [concat_all, List.enumFrom, hk, String.append_assoc]
        rfl

theorem db_items_length (segs : List String) (args : List Arg) :
    (db_items segs args).length = min segs.length args.length := by
  simp [db_items, List.length_zip]

/-- C17: for any names string and any number of values `db_out` returns, having written the
i-th value against the i-th segment for as many items as there are of both, the minimum of
the two counts: with more segments than values the surplus names are not written and the
output ends with a line break after the last separator, with more values than segments the
surplus values are not written. -/
theorem C17_db_out_mismatch (clog : ostream) (names : String) (args : List Arg) :
    (db_out clog names args).buf
      = clog.buf ++ concat_all (db_items (segments names) args)
        ++ (if args.length < (segments names).length then "\n" else "")
    ∧ (db_items (segments names) args).length = min (segments names).length args.length
    ∧ (db_out ⟨""⟩ "a, b, c" [arg (1 : Int), arg (2 : Int)]).buf = "a = 1 |  b = 2 | \n"
    ∧ (db_out ⟨""⟩ "a, b" [arg (1 : Int), arg (2 : Int), arg (3 : Int)]).buf
        = "a = 1 |  b = 2\n" := by
  refine ⟨?_, db_items_length _ _, by decide, by decide⟩
  rw [db_out_text_any, db_text_any_items _ _ 0 (segments names).length (by simp)
    (segments_ne_nil names), String.append_assoc]
  rfl

/-- C20: `db_out` cuts the names string at every comma: the text it writes is the lockstep
walk over the segments between the commas, where the text before the first comma is a
segment whatever characters it holds and a string without comma is one segment; for the
names `f(a,b), c` and two values the labels are `f(a` and `b)`. -/
theorem C20_split_at_every_comma (clog : ostream) (names : String) (args : List Arg)
    (a b : List Char) (ha : ',' ∉ a) :
    (db_out clog names args).buf = clog.buf ++ db_text_any (segments names) args
    ∧ segments (String.mk (a ++ ',' :: b)) = String.mk a :: segments (String.mk b)
    ∧ segments (String.mk a) = [String.mk a]
    ∧ segments "f(a,b), c" = ["f(a", "b)", " c"]
    ∧ (db_out ⟨""⟩ "f(a,b), c" [arg (1 : Int), arg (2 : Int)]).buf
        = "f(a = 1 | b) = 2 | \n" := by
  refine ⟨db_out_text_any args names clog, ?_, ?_, by decide, by decide⟩
  · simp [segments, split_at_append_no _ _ _ ha]
  · simp [segments, split_at_no _ _ ha]

/-- C20, at the names `g(x,y)` and the value 5. -/
theorem C20_split_at_every_comma_witness :
    segments (String.mk ("g(x".data ++ ',' :: "y)".data)) = ["g(x", "y)"]
    ∧ (db_out ⟨""⟩ "g(x,y)" [arg (5 : Int)]).buf
        = "" ++ db_text_any (segments "g(x,y)") [arg (5 : Int)] :=
  have h := C20_split_at_every_comma ⟨""⟩ "g(x,y)" [arg (5 : Int)] "g(x".data "y)".data
    (by decide)
  ⟨h.2.1.trans (by decide), h.1⟩

end Debug
